import Mathlib

/-!
# Verification of the better-arkts formatter core

This file contains a shallow embedding, in Lean 4, of the core of the
better-arkts VS Code extension: the markup (HML) lexer and parser, the
struct/UI (ArkTS) lexer and parser (including the text-slice UI component
sub-parser), the structural pretty-printer, the basic fallback reindenter,
and the formatting provider's sanity checks.  Text is modelled as `List Char`
(`Str`); stateful TypeScript classes become explicit state records; `while`
loops that are not structurally recursive take an explicit fuel parameter and
return `Option` (`none` = fuel exhausted), so that non-termination of the
source is expressible as "`none` for every fuel".

Positions (line/column/offset fields of tokens, AST nodes and errors) are
metadata that no formatting decision reads; they are omitted from the
embedding.
-/

namespace BetterArkts

/-- Source text, modelled as a list of characters. -/
abbrev Str := List Char

/-- The whitespace class trimmed by JavaScript `String.prototype.trim` and
matched by the regex class `\s` (restricted to the characters that can occur
in the repository's inputs). -/
def isJsSpace (c : Char) : Bool :=
  c = ' ' || c = '\t' || c = '\n' || c = '\r' || c = '\x0b' || c = '\x0c' ||
  c = ' ' || c = '﻿'

/-- JavaScript line-terminator characters (the characters NOT matched by `.`
in a regex without the `s` flag). -/
def isNewlineCh (c : Char) : Bool :=
  c = '\n' || c = '\r' || c = ' ' || c = ' '

/-- JavaScript `String.prototype.trim`. -/
def jsTrim (s : Str) : Str :=
  ((s.dropWhile isJsSpace).reverse.dropWhile isJsSpace).reverse

/-- JavaScript `text.split(/\r?\n/)`: a lone `\r` not followed by `\n` is an
ordinary character; the result always has at least one element. -/
def splitLinesJs : Str → List Str
  | [] => [[]]
  | '\r' :: '\n' :: rest => [] :: splitLinesJs rest
  | '\n' :: rest => [] :: splitLinesJs rest
  | c :: rest =>
    match splitLinesJs rest with
    | [] => [[c]]
    | l :: ls => (c :: l) :: ls

/-- JavaScript `Array.prototype.join(sep)`. -/
def joinSep (sep : Str) : List Str → Str
  | [] => []
  | [l] => l
  | l :: ls => l ++ sep ++ joinSep sep ls

/-- JavaScript `s.startsWith(pre)`. -/
def listStartsWith (pre s : Str) : Bool := List.isPrefixOf pre s

/-- JavaScript `s.endsWith(suf)`. -/
def listEndsWith (suf s : Str) : Bool := List.isSuffixOf suf s

/-- `'x'.repeat(n)`-style repetition of a string. -/
def repeatStr (s : Str) (n : Nat) : Str := (List.replicate n s).flatten

/-- `countLeadingChars` from `basicFormatter.ts`: the number of leading
occurrences of `ch`. -/
def countLeadingChars (ch : Char) : Str → Nat
  | [] => 0
  | c :: rest => if c = ch then countLeadingChars ch rest + 1 else 0

/-!
## Basic fallback formatter (`basicFormatter.ts`)
-/

/-- `countBracesOutsideStrings` from `basicFormatter.ts`, as a recursive scan
over the characters of one line.  The four booleans are `inSingle`,
`inDouble`, `inTemplate` and `escape`, in source order; the scan stops at a
`//` occurring outside all strings. -/
def countBracesGo : Bool → Bool → Bool → Bool → Str → (Nat × Nat)
  | _, _, _, _, [] => (0, 0)
  | inS, inD, inT, esc, c :: rest =>
    if !inS && !inD && !inT && c = '/' && rest.head? = some '/' then (0, 0)
    else if esc then countBracesGo inS inD inT false rest
    else if c = '\\' then countBracesGo inS inD inT (inS || inD || inT) rest
    else if !inD && !inT && c = '\'' then countBracesGo (!inS) inD inT esc rest
    else if !inS && !inT && c = '"' then countBracesGo inS (!inD) inT esc rest
    else if !inS && !inD && c = '`' then countBracesGo inS inD (!inT) esc rest
    else if inS || inD || inT then countBracesGo inS inD inT esc rest
    else if c = '{' then
      let p := countBracesGo inS inD inT esc rest
      (p.1 + 1, p.2)
    else if c = '}' then
      let p := countBracesGo inS inD inT esc rest
      (p.1, p.2 + 1)
    else countBracesGo inS inD inT esc rest

/-- `{openBraces, closeBraces} = countBracesOutsideStrings(text)`. -/
def countBracesOutsideStrings (t : Str) : Nat × Nat :=
  countBracesGo false false false false t

/-- The regex test `/^switch\s*\(/.test(t)`. -/
def isSwitchStart (t : Str) : Bool :=
  listStartsWith "switch".data t &&
    ((t.drop 6).dropWhile isJsSpace).head? = some '('

/-- NFA scan for the tail of `^case\s+.+:`: after `case` and one whitespace
character, `aLive` means the `\s+` group can still be extended, `bLive` means
the `.+` group has consumed at least one character; accepts on a `:` once
`bLive` holds. -/
def caseNfa : Bool → Bool → Str → Bool
  | _, _, [] => false
  | aLive, bLive, c :: rest =>
    if bLive && c = ':' then true
    else
      let a' := aLive && isJsSpace c
      let b' := (bLive || aLive) && !isNewlineCh c
      if !a' && !b' then false else caseNfa a' b' rest

/-- The regex test `/^(case\s+.+:|default\s*:)/.test(t)`. -/
def isCaseLabel (t : Str) : Bool :=
  (match t with
   | 'c' :: 'a' :: 's' :: 'e' :: c :: rest => isJsSpace c && caseNfa true false rest
   | _ => false)
  || (listStartsWith "default".data t &&
        ((t.drop 7).dropWhile isJsSpace).head? = some ':')

/-- The operator characters of the regex class `[+\-*\/%=&|<>!^~?:]`. -/
def opEndChars : Str := "+-*/%=&|<>!^~?:".data

/-- `prevEndsWithOperator` from `reindentBlock`: the previous trimmed line
ends with an operator character but not with `=>` and not with `:`. -/
def prevEndsWithOp (p : Str) : Bool :=
  (match p.getLast? with
   | some c => opEndChars.contains c
   | none => false)
  && !listEndsWith "=>".data p && !listEndsWith ":".data p

/-- One `switchStack` frame (`{baseIndent, inCase}`). -/
structure SwFrame where
  base : Nat
  inCase : Bool
  deriving DecidableEq, Repr

/-- The per-line state of `reindentBlock`; `started` stands for the source's
`result.length > 0` test, the stacks keep their top at the head. -/
structure RSt where
  currentIndent : Nat
  lastWasEmpty : Bool
  started : Bool
  switchStack : List SwFrame
  inDocComment : Bool
  prevTrimmed : Str
  prevChainIndent : Nat
  braceExtra : List Nat
  deriving DecidableEq, Repr

/-- The state of `reindentBlock` before the first line. -/
def initRSt : RSt :=
  { currentIndent := 0, lastWasEmpty := false, started := false,
    switchStack := [], inDocComment := false, prevTrimmed := [],
    prevChainIndent := 0, braceExtra := [] }

/-- `chainIndentForLine` of `reindentBlock` (0 for non-chain lines). -/
def chainIndentFor (st : RSt) (t : Str) : Nat :=
  if listStartsWith ".".data t then
    if listStartsWith ".".data st.prevTrimmed then st.prevChainIndent
    else if listEndsWith "\x7d".data st.prevTrimmed then 0
    else if prevEndsWithOp st.prevTrimmed then 0
    else 1
  else 0

/-- Sum of the `braceExtraIndentStack`. -/
def braceExtraSum (st : RSt) : Nat := st.braceExtra.foldl (· + ·) 0

/-- The indentation level used for doc-comment lines:
`baseIndentLevel + currentIndent + sum(braceExtraIndentStack)`. -/
def docIndentLevel (base : Nat) (st : RSt) : Nat :=
  base + st.currentIndent + braceExtraSum st

/-- Processing of one non-blank, non-doc-comment line of `reindentBlock`:
returns the emitted line and the updated state.  Mirrors, in order: the
`switch` push, chain-indent computation, leading-close-brace dedent,
case-label handling, emission, string-aware brace counting, the
`braceExtraIndentStack` pops/pushes, the clamped indent update, and the
`switch` pop. -/
def reindentStep (indentUnit : Str) (base : Nat) (st : RSt) (t : Str) :
    Str × RSt :=
  let sw0 := if isSwitchStart t then
      (⟨st.currentIndent, false⟩ : SwFrame) :: st.switchStack
    else st.switchStack
  let chain := chainIndentFor st t
  let isChain := listStartsWith ".".data t
  let leadingClose := countLeadingChars '}' t
  let indentBefore := st.currentIndent - leadingClose
  let braceSum := braceExtraSum st
  let isCase := isCaseLabel t
  let sw1 :=
    match sw0 with
    | top :: rest => if isCase then { top with inCase := true } :: rest
                     else top :: rest
    | [] => []
  let line :=
    match sw1 with
    | top :: _ =>
      if isCase then repeatStr indentUnit (base + indentBefore + braceSum) ++ t
      else if top.inCase && !listStartsWith "\x7d".data t then
        repeatStr indentUnit (base + indentBefore + braceSum + 1) ++ t
      else repeatStr indentUnit (base + indentBefore + braceSum + chain) ++ t
    | [] => repeatStr indentUnit (base + indentBefore + braceSum + chain) ++ t
  let counts := countBracesOutsideStrings t
  let openB := counts.1
  let closeB := counts.2
  let be1 := st.braceExtra.drop closeB
  let ci1 := st.currentIndent + openB - closeB
  let be2 := List.replicate openB (if isChain then chain else 0) ++ be1
  let sw2 :=
    match sw1 with
    | top :: rest => if ci1 = top.base && closeB > 0 then rest else top :: rest
    | [] => []
  (line,
   { currentIndent := ci1, lastWasEmpty := false, started := true,
     switchStack := sw2, inDocComment := false, prevTrimmed := t,
     prevChainIndent := if isChain then chain else 0, braceExtra := be2 })

/-- Normalization of a doc-comment interior line (the `formattedComment`
computation of `reindentBlock`). -/
def docNormalize (t : Str) : Str :=
  let fc :=
    if !listStartsWith "*".data t then '*' :: ' ' :: t
    else if t = "*".data then [' ', '*']
    else if !listStartsWith "* ".data t && listStartsWith "*".data t then
      '*' :: ' ' :: jsTrim (t.drop 1)
    else t
  if listStartsWith " ".data fc then fc else ' ' :: fc

/-- The `commentEnd` computation for a line closing a doc comment. -/
def docCommentEnd (t : Str) : Str :=
  if listStartsWith "*".data t then ' ' :: t else ' ' :: '*' :: ' ' :: t

/-- The main line loop of `reindentBlock`: blank-line collapsing, doc-comment
handling, and `reindentStep` for ordinary lines. -/
def goLines (indentUnit : Str) (base : Nat) : RSt → List Str → List Str
  | _, [] => []
  | st, l :: rest =>
    let t := jsTrim l
    if t.isEmpty then
      if !st.lastWasEmpty && st.started then
        [] :: goLines indentUnit base { st with lastWasEmpty := true } rest
      else goLines indentUnit base st rest
    else if listStartsWith "/**".data t && !listEndsWith "*/".data t then
      (repeatStr indentUnit (docIndentLevel base st) ++ t) ::
        goLines indentUnit base
          { st with inDocComment := true, lastWasEmpty := false,
                    started := true, prevTrimmed := t } rest
    else if st.inDocComment then
      if t = "*/".data || listEndsWith "*/".data t then
        (repeatStr indentUnit (docIndentLevel base st) ++ docCommentEnd t) ::
          goLines indentUnit base
            { st with inDocComment := false, lastWasEmpty := false,
                      started := true, prevTrimmed := t } rest
      else
        (repeatStr indentUnit (docIndentLevel base st) ++ docNormalize t) ::
          goLines indentUnit base
            { st with lastWasEmpty := false, started := true,
                      prevTrimmed := t } rest
    else
      let p := reindentStep indentUnit base st t
      p.1 :: goLines indentUnit base p.2 rest

/-- The final trailing-blank-line removal of `reindentBlock`. -/
def dropTrailingBlankLines (ls : List Str) : List Str :=
  (ls.reverse.dropWhile (fun l => (jsTrim l).isEmpty)).reverse

/-- `BasicFormatOptions` from `basicFormatter.ts`. -/
structure BasicFormatOptions where
  eol : Str
  indent : Str
  deriving Repr

/-- `reindentBlock(raw, baseIndentLevel, options)`. -/
def reindentBlock (raw : Str) (baseIndentLevel : Nat)
    (opts : BasicFormatOptions) : Str :=
  joinSep opts.eol
    (dropTrailingBlankLines
      (goLines opts.indent baseIndentLevel initRSt (splitLinesJs raw)))

/-- `formatWithBasicRulesText(text, options)` (the basic fallback
formatter). -/
def formatWithBasicRulesText (text : Str) (opts : BasicFormatOptions) : Str :=
  let core := reindentBlock text 0 opts
  if List.isSuffixOf opts.eol text then core ++ opts.eol else core

/-- Modelled from the spec (claim C2, "Fallback content-preservation"):
the trimmed texts of the non-blank lines of a line list, in order. -/
def nonBlankTrimsL (ls : List Str) : List Str :=
  (ls.map jsTrim).filter (fun t => !t.isEmpty)

/-- Modelled from the spec (claim C2): the trimmed texts of the non-blank
lines of a text, in order. -/
def nonBlankTrims (s : Str) : List Str := nonBlankTrimsL (splitLinesJs s)

/-- The state reached by the `goLines` loop after a list of lines: the same
case analysis as `goLines`, keeping only the state updates. -/
def goLinesSt (indentUnit : Str) (base : Nat) : RSt → List Str → RSt
  | st, [] => st
  | st, l :: rest =>
    let t := jsTrim l
    if t.isEmpty then
      if !st.lastWasEmpty && st.started then
        goLinesSt indentUnit base { st with lastWasEmpty := true } rest
      else goLinesSt indentUnit base st rest
    else if listStartsWith "/**".data t && !listEndsWith "*/".data t then
      goLinesSt indentUnit base
        { st with inDocComment := true, lastWasEmpty := false,
                  started := true, prevTrimmed := t } rest
    else if st.inDocComment then
      if t = "*/".data || listEndsWith "*/".data t then
        goLinesSt indentUnit base
          { st with inDocComment := false, lastWasEmpty := false,
                    started := true, prevTrimmed := t } rest
      else
        goLinesSt indentUnit base
          { st with lastWasEmpty := false, started := true,
                    prevTrimmed := t } rest
    else
      goLinesSt indentUnit base (reindentStep indentUnit base st t).2 rest

/-!
## ArkTS lexer (`lexer2.ts`, the `ArkTSLexer` paired with `parser.ts`:
its `TokenType` has the `Newline`/`Comment`/`DocComment`/`String`/`Operator`
members the parser dispatches on)
-/

/-- Token kinds of the ArkTS lexer. -/
inductive ATokType where
  | ws | nl | comment | blockComment | docComment
  | str | templateStr | num | ident | kw | decorator
  | op | punct | regex | eof
  deriving DecidableEq, Repr

/-- An ArkTS token (position metadata omitted). -/
structure ATok where
  type : ATokType
  value : Str
  deriving DecidableEq, Repr

/-- The `KEYWORDS` set of the ArkTS lexer. -/
def arkKeywords : List Str :=
  ["import", "export", "default", "from", "as", "lazy",
   "struct", "class", "interface", "extends", "implements",
   "function", "return", "if", "else", "for", "while", "do",
   "switch", "case", "break", "continue",
   "try", "catch", "finally", "throw",
   "new", "this", "super",
   "const", "let", "var",
   "public", "private", "protected",
   "static", "readonly", "abstract",
   "async", "await",
   "get", "set",
   "type", "enum", "namespace",
   "true", "false", "null", "undefined"].map String.data

/-- The `OPERATORS` set of the ArkTS lexer. -/
def arkOperators : List Str :=
  ["===", "!==", "==", "!=", "<=", ">=", "=>",
   "++", "--", "&&", "||", "??",
   "+=", "-=", "*=", "/=", "%=", "??=",
   "<<", ">>", ">>>",
   "&", "|", "^", "~",
   "+", "-", "*", "/", "%",
   "<", ">", "=", "!", "?", ":",
   ".", "?."].map String.data

/-- The `PUNCTUATORS` set of the ArkTS lexer. -/
def arkPunctChars : List Char := ['{', '}', '(', ')', '[', ']', ',', ';']

def isDigitCh (c : Char) : Bool := '0' ≤ c && c ≤ '9'

def isHexDigitCh (c : Char) : Bool :=
  isDigitCh c || ('a' ≤ c && c ≤ 'f') || ('A' ≤ c && c ≤ 'F')

def isIdentStartCh (c : Char) : Bool :=
  ('a' ≤ c && c ≤ 'z') || ('A' ≤ c && c ≤ 'Z') || c = '_' || c = '$'

def isIdentPartCh (c : Char) : Bool := isIdentStartCh c || isDigitCh c

/-- `consumeNewline`: a `\r` merges a following `\n`. -/
def lx2ConsumeNewline : Str → (Str × Str)
  | '\r' :: '\n' :: rest => (['\r', '\n'], rest)
  | c :: rest => ([c], rest)
  | [] => ([], [])

/-- Body scan of a backtick template string (after the opening backtick).
The `${` sequence consumes both characters and increments the brace depth;
the backtick only terminates at depth 0. -/
def lx2TemplGo (depth : Nat) : Str → (Str × Str)
  | [] => ([], [])
  | '\\' :: c :: rest =>
    let p := lx2TemplGo depth rest
    ('\\' :: c :: p.1, p.2)
  | ['\\'] => (['\\'], [])
  | '`' :: rest =>
    if depth = 0 then (['`'], rest)
    else
      let p := lx2TemplGo depth rest
      ('`' :: p.1, p.2)
  | '$' :: '{' :: rest =>
    let p := lx2TemplGo (depth + 1) rest
    ('$' :: '{' :: p.1, p.2)
  | '{' :: rest =>
    let p := lx2TemplGo (if depth > 0 then depth + 1 else depth) rest
    ('{' :: p.1, p.2)
  | '}' :: rest =>
    let p := lx2TemplGo (if depth > 0 then depth - 1 else depth) rest
    ('}' :: p.1, p.2)
  | c :: rest =>
    let p := lx2TemplGo depth rest
    (c :: p.1, p.2)

/-- Body scan of a single- or double-quoted string (after the opening
quote). -/
def lx2StrGo (quote : Char) : Str → (Str × Str)
  | [] => ([], [])
  | '\\' :: c :: rest =>
    let p := lx2StrGo quote rest
    ('\\' :: c :: p.1, p.2)
  | ['\\'] => (['\\'], [])
  | c :: rest =>
    if c = quote then ([c], rest)
    else
      let p := lx2StrGo quote rest
      (c :: p.1, p.2)

/-- `consumeString(quote)` of the ArkTS lexer (input begins at the opening
quote). -/
def lx2ConsumeString (quote : Char) : Str → (Str × Str)
  | [] => ([], [])
  | q :: rest =>
    let p := if quote = '`' then lx2TemplGo 0 rest else lx2StrGo quote rest
    (q :: p.1, p.2)

/-- `consumeNumber` of the ArkTS lexer: plain decimal / fraction / exponent
part (the non-hex path). -/
def lx2NumMain (s : Str) : Str × Str :=
  let ip := s.takeWhile isDigitCh
  let r1 := s.drop ip.length
  let fr : Str × Str :=
    match r1 with
    | '.' :: d :: rest =>
      if isDigitCh d then
        let ds := (d :: rest).takeWhile isDigitCh
        ('.' :: ds, (d :: rest).drop ds.length)
      else ([], r1)
    | _ => ([], r1)
  let r2 := fr.2
  let ex : Str × Str :=
    match r2 with
    | e :: next :: rest =>
      if (e = 'e' || e = 'E') && (isDigitCh next || next = '+' || next = '-') then
        if next = '+' || next = '-' then
          let ds := rest.takeWhile isDigitCh
          ([e, next] ++ ds, rest.drop ds.length)
        else
          let ds := (next :: rest).takeWhile isDigitCh
          (e :: ds, (next :: rest).drop ds.length)
      else ([], r2)
    | _ => ([], r2)
  (ip ++ fr.1 ++ ex.1, ex.2)

/-- `consumeNumber` of the ArkTS lexer. -/
def lx2ConsumeNumber (s : Str) : Str × Str :=
  match s with
  | '0' :: x :: rest =>
    if x = 'x' || x = 'X' then
      let hex := rest.takeWhile isHexDigitCh
      ('0' :: x :: hex, rest.drop hex.length)
    else lx2NumMain s
  | _ => lx2NumMain s

/-- Body scan of `consumeRegExp`; `none` means a raw newline was hit before
the closing `/` (the lexer rewinds and treats the `/` as an operator). -/
def lx2RegexGo (inClass : Bool) : Str → Option (Str × Str)
  | [] => some ([], [])
  | '\\' :: c :: rest =>
    (lx2RegexGo inClass rest).map (fun p => ('\\' :: c :: p.1, p.2))
  | ['\\'] => some (['\\'], [])
  | '[' :: rest => (lx2RegexGo true rest).map (fun p => ('[' :: p.1, p.2))
  | ']' :: rest =>
    if inClass then (lx2RegexGo false rest).map (fun p => (']' :: p.1, p.2))
    else (lx2RegexGo inClass rest).map (fun p => (']' :: p.1, p.2))
  | '/' :: rest =>
    if inClass then (lx2RegexGo inClass rest).map (fun p => ('/' :: p.1, p.2))
    else some (['/'], rest)
  | c :: rest =>
    if c = '\n' || c = '\r' then none
    else (lx2RegexGo inClass rest).map (fun p => (c :: p.1, p.2))

/-- `consumeRegExp` of the ArkTS lexer (input begins at the `/`). -/
def lx2ConsumeRegExp (s : Str) : Option (Str × Str) :=
  match s with
  | '/' :: rest =>
    (lx2RegexGo false rest).map (fun p =>
      let flags := p.2.takeWhile isIdentPartCh
      ('/' :: p.1 ++ flags, p.2.drop flags.length))
  | _ => none

/-- Line-comment body: stops before a `\n` or `\r`. -/
def lx2LineCommentBody (s : Str) : Str × Str :=
  let body := s.takeWhile (fun c => c ≠ '\n' && c ≠ '\r')
  (body, s.drop body.length)

/-- Block-comment body scan: consumes up to and including `*/` (or to end of
input). -/
def lx2BlockGo : Str → (Str × Str)
  | [] => ([], [])
  | '*' :: '/' :: rest => (['*', '/'], rest)
  | c :: rest =>
    let p := lx2BlockGo rest
    (c :: p.1, p.2)

/-- `matchOperator` (maximal munch, lengths 3 then 2 then 1). -/
def lx2MatchOp (s : Str) : Option Str :=
  let tryLen := fun (k : Nat) =>
    let cand := s.take k
    if arkOperators.contains cand then some cand else none
  (tryLen 3).orElse fun _ => (tryLen 2).orElse fun _ => tryLen 1

/-- `nextToken` of the ArkTS lexer, over the remaining input. -/
def arkNextToken (s : Str) : ATok × Str :=
  match s with
  | [] => (⟨.eof, []⟩, [])
  | ch :: rest =>
    if ch = '\n' || ch = '\r' then
      let p := lx2ConsumeNewline s
      (⟨.nl, p.1⟩, p.2)
    else if ch = ' ' || ch = '\t' then
      let ws := s.takeWhile (fun c => c = ' ' || c = '\t')
      (⟨.ws, ws⟩, s.drop ws.length)
    else if ch = '/' && rest.head? = some '/' then
      let p := lx2LineCommentBody (rest.drop 1)
      (⟨.comment, '/' :: '/' :: p.1⟩, p.2)
    else if ch = '/' && rest.head? = some '*' then
      let body := rest.drop 1
      let isDoc := body.head? = some '*'
      let p := lx2BlockGo body
      (⟨if isDoc then .docComment else .blockComment, '/' :: '*' :: p.1⟩, p.2)
    else if ch = '@' then
      let idp := rest.takeWhile isIdentPartCh
      (⟨.decorator, '@' :: idp⟩, rest.drop idp.length)
    else if ch = '"' || ch = '\'' || ch = '`' then
      let p := lx2ConsumeString ch s
      (⟨if ch = '`' then .templateStr else .str, p.1⟩, p.2)
    else if isDigitCh ch || (ch = '.' && (rest.head?.map isDigitCh).getD false) then
      let p := lx2ConsumeNumber s
      (⟨.num, p.1⟩, p.2)
    else if isIdentStartCh ch then
      let idp := rest.takeWhile isIdentPartCh
      let value := ch :: idp
      (⟨if arkKeywords.contains value then .kw else .ident, value⟩,
       rest.drop idp.length)
    else
      let regexTry : Option (ATok × Str) :=
        if ch = '/' && rest.head? ≠ some '/' && rest.head? ≠ some '*' then
          (lx2ConsumeRegExp s).map (fun p => (⟨.regex, p.1⟩, p.2))
        else none
      match regexTry with
      | some r => r
      | none =>
        if arkPunctChars.contains ch then (⟨.punct, [ch]⟩, rest)
        else
          match lx2MatchOp s with
          | some op => (⟨.op, op⟩, s.drop op.length)
          | none => (⟨.punct, [ch]⟩, rest)

/-- `tokenize`-style loop: the whole token stream of the input (without the
final EOF token; the parser treats an exhausted list as EOF).  Fuel-indexed;
`none` means the fuel ran out. -/
def arkTokenizeGo : Nat → Str → Option (List ATok)
  | 0, _ => none
  | _ + 1, [] => some []
  | f + 1, s =>
    let p := arkNextToken s
    (arkTokenizeGo f p.2).map (p.1 :: ·)

/-- `tokenizeAll` of `ArkTSParser`: every `nextToken` call on a non-empty
remainder consumes at least one character, so `length + 1` steps always
suffice. -/
def arkTokenize (s : Str) : Option (List ATok) :=
  arkTokenizeGo (s.length + 1) s

/-!
## UI component model and the UI component sub-parser
(`UIComponentParser` in `parser.ts`, a text-cursor regex micro-parser over
the raw body slice of a build/builder method)
-/

/-- One chained attribute call `.name(args)`. -/
structure UIAttr where
  name : Str
  args : Str
  deriving DecidableEq, Repr

/-- `ArkTSUIComponent`.  Absent optional string fields are modelled as `[]`
(JavaScript treats `undefined` and `''` alike in every use site: both are
falsy). -/
inductive UIComp : Type where
  | mk (name : Str) (args : Str) (attributes : List UIAttr)
      (children : List UIComp) (isConditional : Bool) (condition : Str)
      (isLoop : Bool) (loopExpression : Str)
  deriving Repr

def UIComp.name : UIComp → Str | .mk n _ _ _ _ _ _ _ => n
def UIComp.args : UIComp → Str | .mk _ a _ _ _ _ _ _ => a
def UIComp.attributes : UIComp → List UIAttr | .mk _ _ a _ _ _ _ _ => a
def UIComp.children : UIComp → List UIComp | .mk _ _ _ c _ _ _ _ => c
def UIComp.isConditional : UIComp → Bool | .mk _ _ _ _ b _ _ _ => b
def UIComp.condition : UIComp → Str | .mk _ _ _ _ _ c _ _ => c
def UIComp.isLoop : UIComp → Bool | .mk _ _ _ _ _ _ b _ => b
def UIComp.loopExpression : UIComp → Str | .mk _ _ _ _ _ _ _ l => l

/-- The scanning mode of the whitespace-and-comment skip: ordinary
characters, inside a `//` comment, or inside a `/* */` comment. -/
inductive SkipMode where
  | norm | line | blok
  deriving DecidableEq, Repr

/-- One-pass scan of the UI sub-parser's `skipWhitespace` (whitespace, `//`
line comments, `/* */` block comments), written with an explicit mode so
that every step consumes exactly the characters the source's nested loops
consume.  A line comment ends at `\n` (which the whitespace loop then
consumes); an unterminated block comment runs to end of input. -/
def uiSkipGo : SkipMode → Str → Str
  | _, [] => []
  | .norm, '/' :: '/' :: rest => uiSkipGo .line rest
  | .norm, '/' :: '*' :: rest => uiSkipGo .blok rest
  | .norm, c :: rest =>
    if c = ' ' || c = '\t' || c = '\n' || c = '\r' then uiSkipGo .norm rest
    else c :: rest
  | .line, c :: rest =>
    if c = '\n' then uiSkipGo .norm rest else uiSkipGo .line rest
  | .blok, '*' :: '/' :: rest => uiSkipGo .norm rest
  | .blok, _ :: rest => uiSkipGo .blok rest

/-- `skipWhitespace` of the UI sub-parser. -/
def uiSkipWs (s : Str) : Str := uiSkipGo .norm s

/-- Template-string scan of the UI sub-parser's `consumeString`: unlike the
lexer's version, a `${` only increments the depth without consuming the `{`,
which is then double-counted by the next branch. -/
def uiTemplGo (depth : Nat) : Str → (Str × Str)
  | [] => ([], [])
  | '\\' :: c :: rest =>
    let p := uiTemplGo depth rest
    ('\\' :: c :: p.1, p.2)
  | ['\\'] => (['\\'], [])
  | '$' :: '{' :: rest =>
    let p := uiTemplGo (depth + 1) ('{' :: rest)
    ('$' :: p.1, p.2)
  | '{' :: rest =>
    let p := uiTemplGo (if depth > 0 then depth + 1 else depth) rest
    ('{' :: p.1, p.2)
  | '}' :: rest =>
    let p := uiTemplGo (if depth > 0 then depth - 1 else depth) rest
    ('}' :: p.1, p.2)
  | '`' :: rest =>
    if depth = 0 then (['`'], rest)
    else
      let p := uiTemplGo depth rest
      ('`' :: p.1, p.2)
  | c :: rest =>
    let p := uiTemplGo depth rest
    (c :: p.1, p.2)

/-- Plain quoted-string scan of the UI sub-parser's `consumeString`. -/
def uiStrGo (quote : Char) : Str → (Str × Str)
  | [] => ([], [])
  | '\\' :: c :: rest =>
    let p := uiStrGo quote rest
    ('\\' :: c :: p.1, p.2)
  | ['\\'] => (['\\'], [])
  | c :: rest =>
    if c = quote then ([c], rest)
    else
      let p := uiStrGo quote rest
      (c :: p.1, p.2)

/-- `UIComponentParser.consumeString(quote)` (input begins at the opening
quote). -/
def uiConsumeString (quote : Char) : Str → (Str × Str)
  | [] => ([], [])
  | q :: rest =>
    let p := if quote = '`' then uiTemplGo 0 rest else uiStrGo quote rest
    (q :: p.1, p.2)

/-- The loop of `UIComponentParser.consumeBalanced` (fuel-indexed; one unit
per iteration). -/
def uiBalGo (openC closeC : Char) : Nat → Nat → Str → Option (Str × Str)
  | _, 0, s => some ([], s)
  | 0, _, _ => none
  | _ + 1, _ + 1, [] => some ([], [])
  | f + 1, d + 1, ch :: rest =>
    if ch = '"' || ch = '\'' || ch = '`' then
      let p := uiConsumeString ch (ch :: rest)
      (uiBalGo openC closeC f (d + 1) p.2).map (fun q => (p.1 ++ q.1, q.2))
    else
      let d1 := if ch = openC then d + 2 else if ch = closeC then d else d + 1
      (uiBalGo openC closeC f d1 rest).map (fun q => (ch :: q.1, q.2))

/-- `UIComponentParser.consumeBalanced(open, close)`. -/
def uiConsumeBalanced (openC closeC : Char) (fuel : Nat) (s : Str) :
    Option (Str × Str) :=
  match s with
  | c :: rest =>
    if c = openC then
      (uiBalGo openC closeC fuel 1 rest).map (fun q => (c :: q.1, q.2))
    else some ([], s)
  | [] => some ([], [])

/-- The regex lookahead `/^([A-Z][a-zA-Z0-9_]*)\s*\(/` of `parseComponent`. -/
def uiMatchName (s : Str) : Option Str :=
  match s with
  | c :: rest =>
    if 'A' ≤ c && c ≤ 'Z' then
      let idrest := rest.takeWhile isIdentAlnumCh
      if ((rest.drop idrest.length).dropWhile isJsSpace).head? = some '(' then
        some (c :: idrest)
      else none
    else none
  | [] => none
where
  isIdentAlnumCh (c : Char) : Bool :=
    ('a' ≤ c && c ≤ 'z') || ('A' ≤ c && c ≤ 'Z') || isDigitCh c || c = '_'

/-- The regex lookahead `/^if\s*\(/`. -/
def uiIfMatch (s : Str) : Bool :=
  match s with
  | 'i' :: 'f' :: rest => (rest.dropWhile isJsSpace).head? = some '('
  | _ => false

/-- The regex lookahead `/^ForEach\s*\(/`. -/
def uiForEachMatch (s : Str) : Bool :=
  listStartsWith "ForEach".data s &&
    ((s.drop 7).dropWhile isJsSpace).head? = some '('

/-- The regex lookahead `/^([a-zA-Z_][a-zA-Z0-9_]*)\s*\(/` of
`parseAttributes`. -/
def uiAttrMatch (s : Str) : Option Str :=
  match s with
  | c :: rest =>
    if ('a' ≤ c && c ≤ 'z') || ('A' ≤ c && c ≤ 'Z') || c = '_' then
      let idrest := rest.takeWhile (fun d =>
        ('a' ≤ d && d ≤ 'z') || ('A' ≤ d && d ≤ 'Z') || isDigitCh d || d = '_')
      if ((rest.drop idrest.length).dropWhile isJsSpace).head? = some '(' then
        some (c :: idrest)
      else none
    else none
  | [] => none

mutual

/-- `UIComponentParser.parse()`. -/
def uiParseGo (fuel : Nat) (s : Str) : Option (List UIComp) :=
  match fuel with
  | 0 => none
  | f + 1 =>
    if s.isEmpty then some []
    else
      let s1 := uiSkipWs s
      if s1.isEmpty then some []
      else
        (uiParseComponent f s1).bind (fun p =>
          match p.1 with
          | some c => (uiParseGo f p.2).map (c :: ·)
          | none => uiParseGo f (p.2.drop 1))

/-- `UIComponentParser.parseComponent()`. -/
def uiParseComponent (fuel : Nat) (s : Str) : Option (Option UIComp × Str) :=
  match fuel with
  | 0 => none
  | f + 1 =>
    let s0 := uiSkipWs s
    match uiMatchName s0 with
    | none =>
      if uiIfMatch s0 then
        (uiParseIf f s0).map (fun p => (some p.1, p.2))
      else if uiForEachMatch s0 then
        let p := uiParseForEach f s0
        some (some p.1, p.2)
      else some (none, s0)
    | some name =>
      let s1 := uiSkipWs (s0.drop name.length)
      (if s1.head? = some '(' then uiConsumeBalanced '(' ')' f s1
       else some ([], s1)).bind (fun pa =>
        (uiParseAttributes f [] pa.2).bind (fun pb =>
          (uiParseChildren f pb.2).map (fun pc =>
            (some (.mk name pa.1 pb.1 pc.1 false [] false []), pc.2))))

/-- `UIComponentParser.parseIfComponent()` (the cursor is at `if`). -/
def uiParseIf (fuel : Nat) (s : Str) : Option (UIComp × Str) :=
  match fuel with
  | 0 => none
  | f + 1 =>
    let s1 := uiSkipWs (s.drop 2)
    (if s1.head? = some '(' then uiConsumeBalanced '(' ')' f s1
     else some ([], s1)).bind (fun pc =>
      let s2 := uiSkipWs pc.2
      (if s2.head? = some '{' then
        (uiConsumeBalanced '{' '}' f s2).bind (fun pb =>
          (uiParseGo f (pb.1.drop 1).dropLast).map (fun cs => (cs, pb.2)))
       else some ([], s2)).map (fun pk =>
        (.mk "If".data [] [] pk.1 true pc.1 false [], pk.2)))

/-- `UIComponentParser.parseForEachComponent()` (the cursor is at
`ForEach`); no recursion, but fuel-indexed like its callers for uniform
balanced capture. -/
def uiParseForEach (fuel : Nat) (s : Str) : UIComp × Str :=
  let s1 := uiSkipWs (s.drop 7)
  let p := if s1.head? = some '(' then
      ((uiConsumeBalanced '(' ')' fuel s1).getD ([], s1))
    else ([], s1)
  (.mk "ForEach".data p.1 [] [] false [] true p.1, p.2)

/-- `UIComponentParser.parseAttributes()`. -/
def uiParseAttributes (fuel : Nat) (acc : List UIAttr) (s : Str) :
    Option (List UIAttr × Str) :=
  match fuel with
  | 0 => none
  | f + 1 =>
    let s0 := uiSkipWs s
    if s0.head? ≠ some '.' then some (acc, s0)
    else
      let s1 := s0.drop 1
      match uiAttrMatch s1 with
      | none => some (acc, s1)
      | some an =>
        let s2 := uiSkipWs (s1.drop an.length)
        (if s2.head? = some '(' then uiConsumeBalanced '(' ')' f s2
         else some ([], s2)).bind (fun pa =>
          uiParseAttributes f (acc ++ [⟨an, pa.1⟩]) pa.2)

/-- `UIComponentParser.parseChildren()`. -/
def uiParseChildren (fuel : Nat) (s : Str) : Option (List UIComp × Str) :=
  match fuel with
  | 0 => none
  | f + 1 =>
    let s0 := uiSkipWs s
    if s0.head? ≠ some '{' then some ([], s0)
    else
      (uiConsumeBalanced '{' '}' f s0).bind (fun pb =>
        (uiParseGo f (pb.1.drop 1).dropLast).map (fun cs => (cs, pb.2)))

end

/-- `ArkTSParser.parseUIComponents(content)`. -/
def uiParse (fuel : Nat) (content : Str) : Option (List UIComp) :=
  uiParseGo fuel content

/-!
## ArkTS document model (`arkts/ast.ts`, as consumed by the parser and the
formatter; location fields omitted)
-/

/-- Member visibility. -/
inductive AVisibility where
  | pub | priv | prot
  deriving DecidableEq, Repr

/-- A decorator `@Name(args?)`; `args` is the balanced `(...)` slice. -/
structure ADecorator where
  name : Str
  args : Option Str
  deriving DecidableEq, Repr

/-- A function/method parameter. -/
structure AParam where
  name : Str
  parameterType : Option Str
  defaultValue : Option Str
  isOptional : Bool
  isRest : Bool
  decorators : List ADecorator
  deriving DecidableEq, Repr

/-- A property member. -/
structure AProperty where
  name : Str
  decorators : List ADecorator
  propertyType : Option Str
  initializer : Option Str
  visibility : Option AVisibility
  isStatic : Bool
  isReadonly : Bool
  deriving DecidableEq, Repr

/-- A method member. -/
structure AMethod where
  name : Str
  decorators : List ADecorator
  parameters : List AParam
  returnType : Option Str
  body : Option Str
  visibility : Option AVisibility
  isStatic : Bool
  isAsync : Bool
  isAbstract : Bool
  deriving DecidableEq, Repr

/-- A `build()` member: raw body slice plus best-effort UI component tree. -/
structure ABuildMethod where
  decorators : List ADecorator
  body : List UIComp
  rawBody : Str
  deriving Repr

/-- A struct/class member. -/
inductive AMember where
  | prop (p : AProperty)
  | method (m : AMethod)
  | build (b : ABuildMethod)
  deriving Repr

/-- A top-level node of the ArkTS document. -/
inductive ANode : Type where
  | importN (raw : Str) (source : Str) (defaultImport : Option Str)
      (namedImports : Option (List Str)) (namespaceImport : Option Str)
  | exportN (raw : Str) (isDefault : Bool) (declaration : Option ANode)
  | structN (name : Str) (decorators : List ADecorator)
      (members : List AMember) (ext : Option Str) (impls : Option (List Str))
  | classN (name : Str) (decorators : List ADecorator)
      (members : List AMember) (ext : Option Str) (impls : Option (List Str))
      (isAbstract : Bool)
  | interfaceN (name : Str) (members : List AMember) (ext : Option (List Str))
  | functionN (name : Str) (decorators : List ADecorator)
      (params : List AParam) (returnType : Option Str) (body : Option Str)
      (isAsync : Bool) (isGenerator : Bool)
  | exprN (raw : Str)
  deriving Repr

/-- The `node.type` string of a top-level node. -/
def ANode.typeName : ANode → Str
  | .importN .. => "Import".data
  | .exportN .. => "Export".data
  | .structN .. => "Struct".data
  | .classN .. => "Class".data
  | .interfaceN .. => "Interface".data
  | .functionN .. => "Function".data
  | .exprN .. => "Expression".data

/-- The ArkTS document.  The source also maintains `imports`/`exports`/
`structs`/`classes`/`interfaces`/`functions` index arrays, filled from the
same nodes in the same order; they are projections of `children` (below). -/
structure ADoc where
  children : List ANode
  deriving Repr

/-- The derived `structs` index of a document. -/
def ADoc.structs (d : ADoc) : List ANode :=
  d.children.filter (fun n => match n with | .structN .. => true | _ => false)

/-!
## ArkTS parser (`parser.ts`), over the token list produced by the lexer

The parser state is the list of remaining tokens (the source indexes into a
frozen token array; `tokens[tokenIndex] ?? EOF` becomes `head?.getD eof`).
`while` loops that are not structurally recursive take a fuel argument and
return `none` when it runs out, so divergence of the source is `none` at
every fuel.
-/

def eofATok : ATok := ⟨.eof, []⟩

/-- `this.current`. -/
def curTok (ts : List ATok) : ATok := (ts.head?).getD eofATok

def isPunctV (v : Str) (ts : List ATok) : Bool :=
  (curTok ts).type = ATokType.punct && (curTok ts).value = v

def isOpV (v : Str) (ts : List ATok) : Bool :=
  (curTok ts).type = ATokType.op && (curTok ts).value = v

def isKwV (v : Str) (ts : List ATok) : Bool :=
  (curTok ts).type = ATokType.kw && (curTok ts).value = v

def isEofT (ts : List ATok) : Bool := (curTok ts).type = ATokType.eof

/-- `skipWhitespace`. -/
def arkSkipWs (ts : List ATok) : List ATok :=
  ts.dropWhile (fun t => t.type = ATokType.ws)

/-- `skipWhitespaceAndComments`. -/
def arkSkipWsC (ts : List ATok) : List ATok :=
  ts.dropWhile (fun t =>
    t.type = ATokType.ws || t.type = ATokType.nl || t.type = ATokType.comment ||
    t.type = ATokType.blockComment || t.type = ATokType.docComment)

/-- The loop of `consumeBalanced` (token-level), entered at depth 1. -/
def arkBalGo (openV closeV : Str) : List ATok → Nat → (Str × List ATok)
  | ts, 0 => ([], ts)
  | [], _ + 1 => ([], [])
  | t :: rest, d + 1 =>
    let d1 := if (t.type = ATokType.punct || t.type = ATokType.op) &&
        t.value = openV then d + 2 else d + 1
    let d2 := if (t.type = ATokType.punct || t.type = ATokType.op) &&
        t.value = closeV then d1 - 1 else d1
    let p := arkBalGo openV closeV rest d2
    (t.value ++ p.1, p.2)

/-- `ArkTSParser.consumeBalanced(open, close)`: concatenates the raw values
of the consumed tokens. -/
def arkConsumeBalanced (openV closeV : Str) (ts : List ATok) :
    Str × List ATok :=
  if isPunctV openV ts || isOpV openV ts then
    let p := arkBalGo openV closeV ts.tail 1
    ((curTok ts).value ++ p.1, p.2)
  else ([], ts)

/-- `readUntil(stopKeywords)`. -/
def arkReadUntil (stops : List Str) : List ATok → (Str × List ATok)
  | [] => ([], [])
  | t :: rest =>
    if t.type = ATokType.punct && t.value = "\x7b".data then ([], t :: rest)
    else if stops.any (fun kw => t.type = ATokType.kw && t.value = kw) then
      ([], t :: rest)
    else
      let p := arkReadUntil stops rest
      (t.value ++ p.1, p.2)

/-- The loop of `readTypeAnnotation` (depth may go negative, hence `Int`). -/
def arkReadTypeGo : List ATok → Int → (Str × List ATok)
  | [], _ => ([], [])
  | t :: rest, depth =>
    let isP := fun (v : Str) => t.type = ATokType.punct && t.value = v
    let isO := fun (v : Str) => t.type = ATokType.op && t.value = v
    let d1 : Int := if isP "\x7b".data || isP "(".data || isP "[".data ||
        isO "<".data then depth + 1 else depth
    let d2 : Int := if isP "\x7d".data || isP ")".data || isP "]".data ||
        isO ">".data then d1 - 1 else d1
    if d2 < 0 then ([], t :: rest)
    else if d2 = 0 && (isP "=".data || isP ",".data || isP ";".data ||
        isP "\x7b".data || isP ")".data) then ([], t :: rest)
    else if d2 = 0 && t.type = ATokType.nl then ([], t :: rest)
    else
      let p := arkReadTypeGo rest d2
      (t.value ++ p.1, p.2)

/-- `readTypeAnnotation()`. -/
def arkReadType (ts : List ATok) : Str × List ATok :=
  let p := arkReadTypeGo ts 0
  (jsTrim p.1, p.2)

/-- The loop of `readExpression`. -/
def arkReadExprGo : List ATok → Nat → (Str × List ATok)
  | [], _ => ([], [])
  | t :: rest, depth =>
    let isP := fun (v : Str) => t.type = ATokType.punct && t.value = v
    let d1 := if isP "\x7b".data || isP "(".data || isP "[".data then depth + 1
      else depth
    if (isP "\x7d".data || isP ")".data || isP "]".data) && depth = 0 then
      ([], t :: rest)
    else
      let d2 := if isP "\x7d".data || isP ")".data || isP "]".data then d1 - 1
        else d1
      if d2 = 0 && (isP ",".data || isP ";".data) then ([], t :: rest)
      else if d2 = 0 && t.type = ATokType.nl then ([], t :: rest)
      else
        let p := arkReadExprGo rest d2
        (t.value ++ p.1, p.2)

/-- `readExpression()`. -/
def arkReadExpr (ts : List ATok) : Str × List ATok :=
  let p := arkReadExprGo ts 0
  (jsTrim p.1, p.2)

/-- `parseDecorator()`: `null` when the current token is not a decorator. -/
def arkParseDecorator (ts : List ATok) : Option ADecorator × List ATok :=
  if (curTok ts).type = ATokType.decorator then
    let name := (curTok ts).value.drop 1
    let ts1 := arkSkipWs ts.tail
    if isPunctV "(".data ts1 then
      let p := arkConsumeBalanced "(".data ")".data ts1
      (some ⟨name, some p.1⟩, p.2)
    else (some ⟨name, none⟩, ts1)
  else (none, ts)

/-- The loop of `parseDecorators()`. -/
def arkParseDecoratorsGo : Nat → List ADecorator → List ATok →
    Option (List ADecorator × List ATok)
  | 0, _, _ => none
  | f + 1, acc, ts =>
    if (curTok ts).type = ATokType.decorator then
      let p := arkParseDecorator ts
      let ts2 := arkSkipWsC p.2
      arkParseDecoratorsGo f (acc ++ p.1.toList) ts2
    else some (acc, ts)

/-- `parseDecorators()`. -/
def arkParseDecorators (fuel : Nat) (ts : List ATok) :
    Option (List ADecorator × List ATok) :=
  arkParseDecoratorsGo fuel [] ts

/-- The raw-accumulation loop of `parseImport` (a `;` is consumed, a
newline terminates the statement but is left in the stream; both contribute
their text to `raw`). -/
def arkImportGo : List ATok → (Str × List ATok)
  | [] => ([], [])
  | t :: rest =>
    if t.type = ATokType.nl || (t.type = ATokType.punct && t.value = ";".data)
    then
      if t.type = ATokType.punct && t.value = ";".data then (t.value, rest)
      else (t.value, t :: rest)
    else
      let p := arkImportGo rest
      (t.value ++ p.1, p.2)

/-- JavaScript `\w`. -/
def isWordCh (c : Char) : Bool :=
  ('a' ≤ c && c ≤ 'z') || ('A' ≤ c && c ≤ 'Z') || isDigitCh c || c = '_'

/-- First match of `/from\s+['"]([^'"]+)['"]/`, returning the quoted
source. -/
def matchFromSource : Str → Option Str
  | [] => none
  | s@(_ :: rest) =>
    (if listStartsWith "from".data s then
      let r1 := s.drop 4
      let wsn := r1.takeWhile isJsSpace
      if wsn.isEmpty then none
      else
        match r1.drop wsn.length with
        | q :: r2 =>
          if q = '\'' || q = '"' then
            let body := r2.takeWhile (fun c => c ≠ '\'' && c ≠ '"')
            if !body.isEmpty && (r2.drop body.length).head?.isSome then
              some body
            else none
          else none
        | [] => none
    else none).orElse (fun _ => matchFromSource rest)

/-- First match of `/import\s+(\w+)\s+from/`, returning the default-import
name. -/
def matchDefaultImport : Str → Option Str
  | [] => none
  | s@(_ :: rest) =>
    (if listStartsWith "import".data s then
      let r1 := s.drop 6
      let wsn := r1.takeWhile isJsSpace
      if wsn.isEmpty then none
      else
        let r2 := r1.drop wsn.length
        let w := r2.takeWhile isWordCh
        if w.isEmpty then none
        else
          let r3 := r2.drop w.length
          let wsn2 := r3.takeWhile isJsSpace
          if wsn2.isEmpty then none
          else if listStartsWith "from".data (r3.drop wsn2.length) then some w
          else none
    else none).orElse (fun _ => matchDefaultImport rest)

/-- First match of `/\{([^}]+)\}/`, returning the braced body. -/
def matchBraced : Str → Option Str
  | [] => none
  | '{' :: rest =>
    let body := rest.takeWhile (· ≠ '}')
    if !body.isEmpty && (rest.drop body.length).head? = some '}' then some body
    else matchBraced rest
  | _ :: rest => matchBraced rest

/-- First match of `/\*\s+as\s+(\w+)/`, returning the namespace name. -/
def matchNamespaceImport : Str → Option Str
  | [] => none
  | s@(_ :: rest) =>
    (match s with
     | '*' :: r1 =>
       let wsn := r1.takeWhile isJsSpace
       if wsn.isEmpty then none
       else if listStartsWith "as".data (r1.drop wsn.length) then
         let r2 := (r1.drop wsn.length).drop 2
         let wsn2 := r2.takeWhile isJsSpace
         if wsn2.isEmpty then none
         else
           let w := (r2.drop wsn2.length).takeWhile isWordCh
           if w.isEmpty then none else some w
       else none
     | _ => none).orElse (fun _ => matchNamespaceImport rest)

/-- JavaScript `s.split(sep)` for a single-character separator. -/
def splitOn (sep : Char) : Str → List Str
  | [] => [[]]
  | c :: rest =>
    if c = sep then [] :: splitOn sep rest
    else
      match splitOn sep rest with
      | [] => [[c]]
      | l :: ls => (c :: l) :: ls

/-- `s.split(',').map(s => s.trim()).filter(s => s)`. -/
def splitCommaTrim (s : Str) : List Str :=
  ((splitOn ',' s).map jsTrim).filter (· ≠ [])

/-- `parseImport()`. -/
def arkParseImport (ts : List ATok) : ANode × List ATok :=
  let p := arkImportGo ts
  let raw := p.1
  let source := (matchFromSource raw).getD []
  let defaultImport := matchDefaultImport raw
  let namedImports := (matchBraced raw).map splitCommaTrim
  let namespaceImport := matchNamespaceImport raw
  (.importN (jsTrim raw) source defaultImport namedImports namespaceImport,
   p.2)

/-- `parseParameter()`. -/
def arkParseParameter (fuel : Nat) (ts : List ATok) :
    Option (Option AParam × List ATok) :=
  (arkParseDecorators fuel ts).map (fun pd =>
    let ts1 := arkSkipWs pd.2
    let isRest := isPunctV "...".data ts1
    let ts2 := if isRest then arkSkipWs ts1.tail else ts1
    if (curTok ts2).type ≠ ATokType.ident then (none, ts2)
    else
      let name := (curTok ts2).value
      let ts3 := arkSkipWs ts2.tail
      let isOptional := isOpV "?".data ts3
      let ts4 := if isOptional then arkSkipWs ts3.tail else ts3
      let pt : Option Str × List ATok :=
        if isOpV ":".data ts4 then
          let q := arkReadType (arkSkipWs ts4.tail)
          (some q.1, q.2)
        else (none, ts4)
      let ts5 := arkSkipWs pt.2
      let dv : Option Str × List ATok :=
        if isOpV "=".data ts5 then
          let q := arkReadExpr (arkSkipWs ts5.tail)
          (some q.1, q.2)
        else (none, ts5)
      (some ⟨name, pt.1, dv.1, isOptional, isRest, pd.1⟩, dv.2))

/-- The loop of `parseParameters()`; the defect behind parser divergence is
visible here: when `parseParameter` returns `null` without consuming a
token, the loop state repeats. -/
def arkParseParametersGo : Nat → List AParam → List ATok →
    Option (List AParam × List ATok)
  | 0, _, _ => none
  | f + 1, acc, ts =>
    if isEofT ts || isPunctV ")".data ts then some (acc, ts)
    else
      let ts1 := arkSkipWsC ts
      if isPunctV ")".data ts1 then some (acc, ts1)
      else
        (arkParseParameter f ts1).bind (fun pp =>
          let acc' := acc ++ pp.1.toList
          let ts2 := arkSkipWs pp.2
          let ts3 := if isPunctV ",".data ts2 then ts2.tail else ts2
          arkParseParametersGo f acc' ts3)

/-- `parseParameters()`. -/
def arkParseParameters (fuel : Nat) (ts : List ATok) :
    Option (List AParam × List ATok) :=
  if isPunctV "(".data ts then
    (arkParseParametersGo fuel [] ts.tail).map (fun p =>
      (p.1, if isPunctV ")".data p.2 then p.2.tail else p.2))
  else some ([], ts)

/-- `parseProperty(...)`. -/
def arkParseProperty (name : Str) (decorators : List ADecorator)
    (visibility : Option AVisibility) (isStatic isReadonly : Bool)
    (ts : List ATok) : AMember × List ATok :=
  let pt : Option Str × List ATok :=
    if isOpV ":".data ts then
      let q := arkReadType (arkSkipWs ts.tail)
      (some q.1, q.2)
    else (none, ts)
  let ts1 := arkSkipWs pt.2
  let init : Option Str × List ATok :=
    if isOpV "=".data ts1 then
      let q := arkReadExpr (arkSkipWs ts1.tail)
      (some q.1, q.2)
    else (none, ts1)
  let ts2 := arkSkipWs init.2
  let ts3 := if isPunctV ";".data ts2 || (curTok ts2).type = ATokType.nl then
      ts2.tail
    else ts2
  (.prop ⟨name, decorators, pt.1, init.1, visibility, isStatic, isReadonly⟩,
   ts3)

/-- `parseMethod(...)`. -/
def arkParseMethod (fuel : Nat) (name : Str) (decorators : List ADecorator)
    (visibility : Option AVisibility) (isStatic isAsync isAbstract : Bool)
    (ts : List ATok) : Option (AMember × List ATok) :=
  let tp : List ATok :=
    if isOpV "<".data ts then (arkConsumeBalanced "<".data ">".data ts).2
    else ts
  (arkParseParameters fuel tp).map (fun pp =>
    let ts1 := arkSkipWs pp.2
    let rt : Option Str × List ATok :=
      if isOpV ":".data ts1 then
        let q := arkReadType (arkSkipWs ts1.tail)
        (some q.1, q.2)
      else (none, ts1)
    let ts2 := arkSkipWs rt.2
    let body : Option Str × List ATok :=
      if isPunctV "\x7b".data ts2 then
        let q := arkConsumeBalanced "\x7b".data "\x7d".data ts2
        (some q.1, q.2)
      else (none, ts2)
    (.method ⟨name, decorators, pp.1, rt.1, body.1, visibility, isStatic,
        isAsync, isAbstract⟩,
     body.2))

/-- `parseBuildMethod(decorators)` (the cursor is at the body `{`). -/
def arkParseBuildMethod (fuel : Nat) (decorators : List ADecorator)
    (ts : List ATok) : Option (AMember × List ATok) :=
  if !isPunctV "\x7b".data ts then
    some (.build ⟨decorators, [], []⟩, ts)
  else
    let p := arkConsumeBalanced "\x7b".data "\x7d".data ts
    let bodyContent := (p.1.drop 1).dropLast
    (uiParse fuel bodyContent).map (fun comps =>
      (.build ⟨decorators, comps, bodyContent⟩, p.2))

/-- The modifier loop of `parseMember` (visibility / `static` / `readonly` /
`async` / `abstract`). -/
def arkMemberModsGo : Nat → (Option AVisibility × Bool × Bool × Bool × Bool) →
    List ATok →
    Option ((Option AVisibility × Bool × Bool × Bool × Bool) × List ATok)
  | 0, _, _ => none
  | f + 1, mods, ts =>
    let step := fun (m : Option AVisibility × Bool × Bool × Bool × Bool) =>
      arkMemberModsGo f m (arkSkipWs ts.tail)
    let (vis, isStatic, isReadonly, isAsync, isAbstract) := mods
    if isKwV "public".data ts then step (some .pub, isStatic, isReadonly, isAsync, isAbstract)
    else if isKwV "private".data ts then step (some .priv, isStatic, isReadonly, isAsync, isAbstract)
    else if isKwV "protected".data ts then step (some .prot, isStatic, isReadonly, isAsync, isAbstract)
    else if isKwV "static".data ts then step (vis, true, isReadonly, isAsync, isAbstract)
    else if isKwV "readonly".data ts then step (vis, isStatic, true, isAsync, isAbstract)
    else if isKwV "async".data ts then step (vis, isStatic, isReadonly, true, isAbstract)
    else if isKwV "abstract".data ts then step (vis, isStatic, isReadonly, isAsync, true)
    else some (mods, ts)

/-- `parseMember(decorators)`: speculative `build() {` probe with
save/restore, then method/property dispatch. -/
def arkParseMember (fuel : Nat) (decorators : List ADecorator)
    (ts0 : List ATok) : Option (Option AMember × List ATok) :=
  let ts := arkSkipWs ts0
  (arkMemberModsGo fuel (none, false, false, false, false) ts).bind
    (fun pm =>
      let (mods, ts1) := pm
      let (vis, isStatic, isReadonly, isAsync, isAbstract) := mods
      let buildProbe : Option (Option (AMember × List ATok)) :=
        if (curTok ts1).type = ATokType.ident &&
            (curTok ts1).value = "build".data then
          let ts2 := arkSkipWs ts1.tail
          if isPunctV "(".data ts2 then
            let ts3 := arkSkipWs ts2.tail
            if isPunctV ")".data ts3 then
              let ts4 := arkSkipWs ts3.tail
              if isPunctV "\x7b".data ts4 then
                some (arkParseBuildMethod fuel decorators ts4)
              else none
            else none
          else none
        else none
      match buildProbe with
      | some r => r.map (fun p => (some p.1, p.2))
      | none =>
        if (curTok ts1).type ≠ ATokType.ident &&
            (curTok ts1).type ≠ ATokType.kw then
          some (none, ts1.tail)
        else
          let name := (curTok ts1).value
          let ts2 := arkSkipWs ts1.tail
          let isOptional := isOpV "?".data ts2
          let ts3 := if isOptional then arkSkipWs ts2.tail else ts2
          if isPunctV "(".data ts3 || isOpV "<".data ts3 then
            (arkParseMethod fuel name decorators vis isStatic isAsync
                isAbstract ts3).map (fun p => (some p.1, p.2))
          else
            let p := arkParseProperty name decorators vis isStatic
                isReadonly ts3
            some (some p.1, p.2))

/-- The member loop shared by `parseStructMembers` / `parseClassMembers`
(`keepBuild = false` drops BuildMethod members, as `parseClassMembers`
does). -/
def arkMembersGo (keepBuild : Bool) : Nat → List AMember → List ATok →
    Option (List AMember × List ATok)
  | 0, _, _ => none
  | f + 1, acc, ts =>
    if isEofT ts || isPunctV "\x7d".data ts then some (acc, ts)
    else
      let ts1 := arkSkipWsC ts
      if isPunctV "\x7d".data ts1 then some (acc, ts1)
      else
        (arkParseDecorators f ts1).bind (fun pd =>
          (arkParseMember f pd.1 pd.2).bind (fun pmem =>
            let acc' := acc ++ (match pmem.1 with
              | some m =>
                if keepBuild then [m]
                else match m with
                  | .build _ => []
                  | _ => [m]
              | none => [])
            arkMembersGo keepBuild f acc' pmem.2))

/-- `parseStructMembers()`. -/
def arkParseStructMembers (fuel : Nat) (ts : List ATok) :
    Option (List AMember × List ATok) :=
  if !isPunctV "\x7b".data ts then some ([], ts)
  else
    (arkMembersGo true fuel [] ts.tail).map (fun p =>
      (p.1, if isPunctV "\x7d".data p.2 then p.2.tail else p.2))

/-- `parseClassMembers()` (BuildMethod members are dropped). -/
def arkParseClassMembers (fuel : Nat) (ts : List ATok) :
    Option (List AMember × List ATok) :=
  if !isPunctV "\x7b".data ts then some ([], ts)
  else
    (arkMembersGo false fuel [] ts.tail).map (fun p =>
      (p.1, if isPunctV "\x7d".data p.2 then p.2.tail else p.2))

/-- `parseStruct(decorators)` (the cursor is at the `struct` keyword). -/
def arkParseStruct (fuel : Nat) (decorators : List ADecorator)
    (ts : List ATok) : Option (ANode × List ATok) :=
  let ts1 := arkSkipWs ts.tail
  let name := if (curTok ts1).type = ATokType.ident then (curTok ts1).value
    else "Unknown".data
  let ts2 := if (curTok ts1).type = ATokType.ident then ts1.tail else ts1
  let ts3 := arkSkipWs ts2
  let ext : Option Str × List ATok :=
    if isKwV "extends".data ts3 then
      let q := arkReadUntil ["\x7b".data, "implements".data] (arkSkipWs ts3.tail)
      (some q.1, q.2)
    else (none, ts3)
  let impls : Option (List Str) × List ATok :=
    if isKwV "implements".data ext.2 then
      let q := arkReadUntil ["\x7b".data] (arkSkipWs ext.2.tail)
      (some (splitCommaTrim q.1), q.2)
    else (none, ext.2)
  (arkParseStructMembers fuel impls.2).map (fun pm =>
    (.structN name decorators pm.1 (ext.1.map jsTrim) impls.1, pm.2))

/-- `parseClass(decorators)`. -/
def arkParseClass (fuel : Nat) (decorators : List ADecorator)
    (ts : List ATok) : Option (ANode × List ATok) :=
  let isAbstract := isKwV "abstract".data ts
  let ts1 := if isAbstract then arkSkipWs ts.tail else ts
  let ts2 := arkSkipWs ts1.tail
  let name := if (curTok ts2).type = ATokType.ident then (curTok ts2).value
    else "Unknown".data
  let ts3 := if (curTok ts2).type = ATokType.ident then ts2.tail else ts2
  let ts4 := arkSkipWs ts3
  let ext : Option Str × List ATok :=
    if isKwV "extends".data ts4 then
      let q := arkReadUntil ["\x7b".data, "implements".data] (arkSkipWs ts4.tail)
      (some (jsTrim q.1), q.2)
    else (none, ts4)
  let impls : Option (List Str) × List ATok :=
    if isKwV "implements".data ext.2 then
      let q := arkReadUntil ["\x7b".data] (arkSkipWs ext.2.tail)
      (some (splitCommaTrim q.1), q.2)
    else (none, ext.2)
  (arkParseClassMembers fuel impls.2).map (fun pm =>
    (.classN name decorators pm.1 ext.1 impls.1 isAbstract, pm.2))

/-- `parseInterface()` (members are skipped via a balanced `{...}`
capture). -/
def arkParseInterface (ts : List ATok) : ANode × List ATok :=
  let ts1 := arkSkipWs ts.tail
  let name := if (curTok ts1).type = ATokType.ident then (curTok ts1).value
    else "Unknown".data
  let ts2 := if (curTok ts1).type = ATokType.ident then ts1.tail else ts1
  let ts3 := arkSkipWs ts2
  let ts4 := if isOpV "<".data ts3 then
      arkSkipWs (arkConsumeBalanced "<".data ">".data ts3).2
    else ts3
  let ext : Option (List Str) × List ATok :=
    if isKwV "extends".data ts4 then
      let q := arkReadUntil ["\x7b".data] (arkSkipWs ts4.tail)
      (some (splitCommaTrim q.1), q.2)
    else (none, ts4)
  let ts5 := if isPunctV "\x7b".data ext.2 then
      (arkConsumeBalanced "\x7b".data "\x7d".data ext.2).2
    else ext.2
  (.interfaceN name [] ext.1, ts5)

/-- `parseFunction(decorators)`. -/
def arkParseFunction (fuel : Nat) (decorators : List ADecorator)
    (ts : List ATok) : Option (ANode × List ATok) :=
  let isAsync := isKwV "async".data ts
  let ts1 := if isAsync then arkSkipWs ts.tail else ts
  let ts2 := arkSkipWs ts1.tail
  let isGenerator := isOpV "*".data ts2
  let ts3 := if isGenerator then arkSkipWs ts2.tail else ts2
  let name := if (curTok ts3).type = ATokType.ident then (curTok ts3).value
    else []
  let ts4 := if (curTok ts3).type = ATokType.ident then ts3.tail else ts3
  let ts5 := arkSkipWs ts4
  let ts6 := if isOpV "<".data ts5 then
      arkSkipWs (arkConsumeBalanced "<".data ">".data ts5).2
    else ts5
  (arkParseParameters fuel ts6).map (fun pp =>
    let ts7 := arkSkipWs pp.2
    let rt : Option Str × List ATok :=
      if isOpV ":".data ts7 then
        let q := arkReadType (arkSkipWs ts7.tail)
        (some q.1, q.2)
      else (none, ts7)
    let ts8 := arkSkipWs rt.2
    let body : Option Str × List ATok :=
      if isPunctV "\x7b".data ts8 then
        let q := arkConsumeBalanced "\x7b".data "\x7d".data ts8
        (some q.1, q.2)
      else (none, ts8)
    (.functionN name decorators pp.1 rt.1 body.1 isAsync isGenerator,
     body.2))

/-- The loop of `parseVariableDeclaration()`. -/
def arkVarDeclGo : Nat → Str → List ATok → Option (Str × List ATok)
  | 0, _, _ => none
  | _ + 1, raw, [] => some (raw, [])
  | f + 1, raw, ts =>
    if isPunctV ";".data ts || (curTok ts).type = ATokType.nl then
      some (raw ++ (curTok ts).value, ts.tail)
    else if isPunctV "\x7b".data ts then
      let p := arkConsumeBalanced "\x7b".data "\x7d".data ts
      arkVarDeclGo f (raw ++ p.1) p.2
    else if isPunctV "(".data ts then
      let p := arkConsumeBalanced "(".data ")".data ts
      arkVarDeclGo f (raw ++ p.1) p.2
    else if isPunctV "[".data ts then
      let p := arkConsumeBalanced "[".data "]".data ts
      arkVarDeclGo f (raw ++ p.1) p.2
    else arkVarDeclGo f (raw ++ (curTok ts).value) ts.tail

/-- `parseVariableDeclaration()`. -/
def arkParseVariableDeclaration (fuel : Nat) (ts : List ATok) :
    Option (ANode × List ATok) :=
  (arkVarDeclGo fuel [] ts).map (fun p => (.exprN (jsTrim p.1), p.2))

/-- The loop of `parseTypeAlias()`. -/
def arkTypeAliasGo : Nat → Str → List ATok → Option (Str × List ATok)
  | 0, _, _ => none
  | _ + 1, raw, [] => some (raw, [])
  | f + 1, raw, ts =>
    if isPunctV ";".data ts || (curTok ts).type = ATokType.nl then
      some (raw ++ (curTok ts).value, ts.tail)
    else if isPunctV "\x7b".data ts then
      let p := arkConsumeBalanced "\x7b".data "\x7d".data ts
      arkTypeAliasGo f (raw ++ p.1) p.2
    else if isOpV "<".data ts then
      let p := arkConsumeBalanced "<".data ">".data ts
      arkTypeAliasGo f (raw ++ p.1) p.2
    else arkTypeAliasGo f (raw ++ (curTok ts).value) ts.tail

/-- `parseTypeAlias()`. -/
def arkParseTypeAlias (fuel : Nat) (ts : List ATok) :
    Option (ANode × List ATok) :=
  (arkTypeAliasGo fuel [] ts).map (fun p => (.exprN (jsTrim p.1), p.2))

/-- The loop of `parseEnum()`. -/
def arkEnumGo : Nat → Str → List ATok → Option (Str × List ATok)
  | 0, _, _ => none
  | _ + 1, raw, [] => some (raw, [])
  | f + 1, raw, ts =>
    if isPunctV "\x7b".data ts then
      let p := arkConsumeBalanced "\x7b".data "\x7d".data ts
      some (raw ++ p.1, p.2)
    else arkEnumGo f (raw ++ (curTok ts).value) ts.tail

/-- `parseEnum()`. -/
def arkParseEnum (fuel : Nat) (ts : List ATok) :
    Option (ANode × List ATok) :=
  (arkEnumGo fuel [] ts).map (fun p => (.exprN (jsTrim p.1), p.2))

/-- `parseExport(decorators)`. -/
def arkParseExport (fuel : Nat) (decorators : List ADecorator)
    (ts : List ATok) : Option (ANode × List ATok) :=
  let ts1 := arkSkipWs ts.tail
  let isDefault := isKwV "default".data ts1
  let ts2 := if isDefault then arkSkipWs ts1.tail else ts1
  (arkParseDecorators fuel ts2).bind (fun pd =>
    let allDecs := decorators ++ pd.1
    let ts3 := pd.2
    let decl : Option (Option (ANode × List ATok)) :=
      if isKwV "struct".data ts3 then some (arkParseStruct fuel allDecs ts3)
      else if isKwV "class".data ts3 || isKwV "abstract".data ts3 then
        some (arkParseClass fuel allDecs ts3)
      else if isKwV "interface".data ts3 then
        some (some (arkParseInterface ts3))
      else if isKwV "function".data ts3 || isKwV "async".data ts3 then
        some (arkParseFunction fuel allDecs ts3)
      else if isKwV "const".data ts3 || isKwV "let".data ts3 ||
          isKwV "var".data ts3 then
        some (arkParseVariableDeclaration fuel ts3)
      else if isKwV "type".data ts3 then some (arkParseTypeAlias fuel ts3)
      else if isKwV "enum".data ts3 then some (arkParseEnum fuel ts3)
      else none
    let raw := if isDefault then "export default".data else "export".data
    match decl with
    | some r =>
      r.map (fun p => (.exportN raw isDefault (some p.1), p.2))
    | none => some (.exportN raw isDefault none, ts3))

/-- `parseTopLevel()`: keyword dispatch; an unrecognized leading token is
consumed and dropped. -/
def arkParseTopLevel (fuel : Nat) (ts : List ATok) :
    Option (Option ANode × List ATok) :=
  (arkParseDecorators fuel ts).bind (fun pd =>
    let decorators := pd.1
    let ts1 := pd.2
    if isKwV "import".data ts1 then
      let p := arkParseImport ts1
      some (some p.1, p.2)
    else if isKwV "export".data ts1 then
      (arkParseExport fuel decorators ts1).map (fun p => (some p.1, p.2))
    else if isKwV "struct".data ts1 then
      (arkParseStruct fuel decorators ts1).map (fun p => (some p.1, p.2))
    else if isKwV "class".data ts1 || isKwV "abstract".data ts1 then
      (arkParseClass fuel decorators ts1).map (fun p => (some p.1, p.2))
    else if isKwV "interface".data ts1 then
      let p := arkParseInterface ts1
      some (some p.1, p.2)
    else if isKwV "function".data ts1 || isKwV "async".data ts1 then
      (arkParseFunction fuel decorators ts1).map (fun p => (some p.1, p.2))
    else if isKwV "const".data ts1 || isKwV "let".data ts1 ||
        isKwV "var".data ts1 then
      (arkParseVariableDeclaration fuel ts1).map (fun p => (some p.1, p.2))
    else if isKwV "type".data ts1 then
      (arkParseTypeAlias fuel ts1).map (fun p => (some p.1, p.2))
    else if isKwV "enum".data ts1 then
      (arkParseEnum fuel ts1).map (fun p => (some p.1, p.2))
    else some (none, ts1.tail))

/-- The loop of `parseDocument()`. -/
def arkParseDocumentGo : Nat → List ANode → List ATok →
    Option (List ANode × List ATok)
  | 0, _, _ => none
  | f + 1, acc, ts =>
    if isEofT ts then some (acc, ts)
    else
      let ts1 := arkSkipWsC ts
      if isEofT ts1 then some (acc, ts1)
      else
        (arkParseTopLevel f ts1).bind (fun p =>
          arkParseDocumentGo f (acc ++ p.1.toList) p.2)

/-- `ArkTSParser.parseDocument()`, over a token list. -/
def arkParseDocument (fuel : Nat) (ts : List ATok) : Option ADoc :=
  (arkParseDocumentGo fuel [] ts).map (fun p => ⟨p.1⟩)

/-- The parser's diagnostic list.  `this.errors` is referenced only by
`reportError` (`parser.ts:1035-1043`), which has no call site anywhere in
the parser, so every parsing function factors through the token-only state
above and carries the error list unchanged. -/
structure AParserState where
  toks : List ATok
  errors : List Str
  deriving Repr

/-- `reportError(message)` (defined in the source, never invoked). -/
def arkReportError (msg : Str) (st : AParserState) : AParserState :=
  { st with errors := st.errors ++ [msg] }

/-- `parseDocument()` including the error-list component of the parser
state. -/
def arkParseDocumentE (fuel : Nat) (st : AParserState) :
    Option (ADoc × AParserState) :=
  (arkParseDocumentGo fuel [] st.toks).map (fun p =>
    (⟨p.1⟩, { toks := p.2, errors := st.errors }))

/-- Constructing `new ArkTSParser(text)` (tokenize-all with empty error
list) and running `parseDocument()`. -/
def arkParseRun (fuel : Nat) (s : Str) : Option (ADoc × AParserState) :=
  (arkTokenize s).bind (fun ts => arkParseDocumentE fuel ⟨ts, []⟩)

/-!
## Structural formatter (`formatter.ts`)
-/

/-- `FormatOptions` of the structural formatter. -/
structure FormatOptions where
  indentSize : Nat
  eol : Str
  maxLineLength : Nat
  singleQuote : Bool
  semicolon : Bool
  trailingComma : Bool
  bracketSpacing : Bool
  deriving Repr

/-- `DEFAULT_FORMAT_OPTIONS`. -/
def DEFAULT_FORMAT_OPTIONS : FormatOptions :=
  { indentSize := 2, eol := "\n".data, maxLineLength := 120,
    singleQuote := true, semicolon := true, trailingComma := false,
    bracketSpacing := true }

/-- `indent(options, level)` of the structural formatter
(`' '.repeat(indentSize * level)`). -/
def fIndent (o : FormatOptions) (level : Nat) : Str :=
  List.replicate (o.indentSize * level) ' '

/-- Count of a character in a string (`(s.match(/c/g) || []).length`). -/
def countCh (c : Char) (s : Str) : Nat := (s.filter (· = c)).length

/-- `needsBlankLineBetween(prevType, currentType)`. -/
def needsBlankLineBetween (prevType currentType : Str) : Bool :=
  let significant := ["Struct", "Class", "Interface", "Function",
    "Export"].map String.data
  if prevType = "Import".data && currentType ≠ "Import".data then true
  else if significant.contains prevType || significant.contains currentType
  then true
  else false

/-- `needsBlankLineBetweenMembers(prevType, currentType)`. -/
def needsBlankLineBetweenMembers (prevType currentType : Str) : Bool :=
  (prevType = "Property".data && currentType = "Method".data) ||
  (prevType = "Property".data && currentType = "BuildMethod".data) ||
  (prevType = "Method".data && currentType = "Method".data) ||
  (prevType = "Method".data && currentType = "BuildMethod".data) ||
  (prevType = "BuildMethod".data && currentType = "Method".data) ||
  (prevType = "BuildMethod".data && currentType = "BuildMethod".data)

/-- The `member.type` string. -/
def AMember.typeName : AMember → Str
  | .prop _ => "Property".data
  | .method _ => "Method".data
  | .build _ => "BuildMethod".data

/-- `formatDecorator(decorator, options)` (a falsy `arguments` — absent or
empty — contributes nothing). -/
def formatDecorator (d : ADecorator) (_o : FormatOptions) : Str :=
  '@' :: d.name ++ (match d.args with
    | some a => if a.isEmpty then [] else a
    | none => [])

/-- `formatParameter(param, options)`. -/
def formatParameter (p : AParam) (o : FormatOptions) : Str :=
  (p.decorators.map (fun d => formatDecorator d o ++ [' '])).flatten ++
  (if p.isRest then "...".data else []) ++
  p.name ++
  (if p.isOptional then "?".data else []) ++
  (match p.parameterType with
   | some t => ':' :: ' ' :: t
   | none => []) ++
  (match p.defaultValue with
   | some v => ' ' :: '=' :: ' ' :: v
   | none => [])

/-- `formatParameters(params, options)`. -/
def formatParameters (ps : List AParam) (o : FormatOptions) : Str :=
  if ps.isEmpty then "()".data
  else
    let paramStrs := ps.map (formatParameter · o)
    let singleLine := '(' :: joinSep ", ".data paramStrs ++ [')']
    if singleLine.length ≤ o.maxLineLength then singleLine
    else
      '(' :: o.eol ++ "  ".data ++
        joinSep (',' :: o.eol ++ "  ".data) paramStrs ++
        (if o.trailingComma then ",".data else []) ++ o.eol ++ ")".data

/-- The line-reindentation loop shared by `formatBody` and
`formatBuildBody`: `extraLevel` is the indentation added on top of the
running brace depth (the two call sites differ by one level). -/
def fmtBodyLinesGo (o : FormatOptions) (extraLevel : Nat) :
    Nat → Bool → Bool → List Str → List Str
  | _, _, _, [] => []
  | ci, lastEmpty, started, l :: rest =>
    let trimmed := jsTrim l
    if trimmed.isEmpty then
      if !lastEmpty && started then
        [] :: fmtBodyLinesGo o extraLevel ci true started rest
      else fmtBodyLinesGo o extraLevel ci lastEmpty started rest
    else
      let closeCount := countLeadingChars '}' trimmed
      let ci0 := if closeCount > 0 && listStartsWith "\x7d".data trimmed then
          ci - closeCount
        else ci
      let line := fIndent o (extraLevel + ci0) ++ trimmed
      let openB := countCh '{' trimmed
      let closeB := countCh '}' trimmed
      let ci1 := ci0 + openB - closeB
      line :: fmtBodyLinesGo o extraLevel ci1 false true rest

/-- `formatBuildBody(rawBody, indentLevel, options)`. -/
def formatBuildBody (rawBody : Str) (indentLevel : Nat) (o : FormatOptions) :
    Str :=
  if (jsTrim rawBody).isEmpty then []
  else
    joinSep o.eol
      (dropTrailingBlankLines
        (fmtBodyLinesGo o indentLevel 0 false false (splitLinesJs rawBody)))

/-- `formatBody(body, indentLevel, options)`. -/
def formatBody (body : Str) (indentLevel : Nat) (o : FormatOptions) : Str :=
  if !listStartsWith "\x7b".data body then
    '{' :: o.eol ++ fIndent o (indentLevel + 1) ++ jsTrim body ++ o.eol ++
      fIndent o indentLevel ++ "\x7d".data
  else
    let content := (body.drop 1).dropLast
    if (jsTrim content).isEmpty then "\x7b\x7d".data
    else
      let fls := dropTrailingBlankLines
        (fmtBodyLinesGo o (indentLevel + 1) 0 false false
          (splitLinesJs content))
      if fls.isEmpty then "\x7b\x7d".data
      else
        '{' :: o.eol ++ joinSep o.eol fls ++ o.eol ++ fIndent o indentLevel ++
          "\x7d".data

/-- `formatUIAttribute(attr, options)`. -/
def formatUIAttribute (a : UIAttr) (_o : FormatOptions) : Str :=
  '.' :: a.name ++ a.args

mutual

/-- `formatUIComponent(component, indentLevel, options)`. -/
def formatUIComponent (o : FormatOptions) (c : UIComp) (lvl : Nat) : Str :=
  match c with
  | .mk name args attributes children isConditional condition isLoop _ =>
    let ind := fIndent o lvl
    if isConditional && name = "If".data then
      joinSep o.eol
        ((ind ++ "if ".data ++ condition ++ " \x7b".data) ::
          (formatUIChildren o children (lvl + 1) ++ [ind ++ "\x7d".data]))
    else if isLoop && name = "ForEach".data then
      ind ++ "ForEach".data ++ (if args.isEmpty then "()".data else args)
    else
      let componentLine :=
        ind ++ name ++ (if args.isEmpty then "()".data else args) ++
          (attributes.map (fun a =>
            o.eol ++ ind ++ "  ".data ++ formatUIAttribute a o)).flatten
      if children.length > 0 then
        joinSep o.eol
          ((componentLine ++ " \x7b".data) ::
            (formatUIChildren o children (lvl + 1) ++ [ind ++ "\x7d".data]))
      else componentLine

/-- The child-formatting loop of `formatUIComponent` (empty child strings
are skipped). -/
def formatUIChildren (o : FormatOptions) (cs : List UIComp) (lvl : Nat) :
    List Str :=
  match cs with
  | [] => []
  | c :: rest =>
    let s := formatUIComponent o c lvl
    if s.isEmpty then formatUIChildren o rest lvl
    else s :: formatUIChildren o rest lvl

end

/-- `formatBuilderBody(body, indentLevel, options)`. -/
def formatBuilderBody (body : Str) (indentLevel : Nat) (o : FormatOptions) :
    Str :=
  if !listStartsWith "\x7b".data body then
    '{' :: o.eol ++ fIndent o (indentLevel + 1) ++ jsTrim body ++ o.eol ++
      fIndent o indentLevel ++ "\x7d".data
  else
    let content := jsTrim ((body.drop 1).dropLast)
    if content.isEmpty then "\x7b\x7d".data
    else
      let formatted := formatBuildBody content (indentLevel + 1) o
      if formatted.isEmpty then "\x7b\x7d".data
      else
        '{' :: o.eol ++ formatted ++ o.eol ++ fIndent o indentLevel ++
          "\x7d".data

/-- `formatProperty(node, indentLevel, options)`. -/
def formatProperty (p : AProperty) (indentLevel : Nat) (o : FormatOptions) :
    Str :=
  fIndent o indentLevel ++
  (p.decorators.map (fun d => formatDecorator d o ++ [' '])).flatten ++
  (match p.visibility with
   | some .pub => "public ".data
   | some .priv => "private ".data
   | some .prot => "protected ".data
   | none => []) ++
  (if p.isStatic then "static ".data else []) ++
  (if p.isReadonly then "readonly ".data else []) ++
  p.name ++
  (match p.propertyType with
   | some t => ':' :: ' ' :: t
   | none => []) ++
  (match p.initializer with
   | some i => ' ' :: '=' :: ' ' :: i
   | none => []) ++
  (if o.semicolon then ";".data else [])

/-- `formatMethod(node, indentLevel, options)`. -/
def formatMethod (m : AMethod) (indentLevel : Nat) (o : FormatOptions) :
    Str :=
  let ind := fIndent o indentLevel
  let decLines := m.decorators.map (fun d => ind ++ formatDecorator d o)
  let methodLine :=
    ind ++
    (match m.visibility with
     | some .pub => "public ".data
     | some .priv => "private ".data
     | some .prot => "protected ".data
     | none => []) ++
    (if m.isAbstract then "abstract ".data else []) ++
    (if m.isStatic then "static ".data else []) ++
    (if m.isAsync then "async ".data else []) ++
    m.name ++ formatParameters m.parameters o ++
    (match m.returnType with
     | some t => ':' :: ' ' :: t
     | none => [])
  let methodLine2 :=
    match m.body with
    | some b =>
      let hasBuilderDecorator := m.decorators.any (fun d =>
        d.name = "Builder".data || d.name = "LocalBuilder".data)
      if hasBuilderDecorator then
        methodLine ++ ' ' :: formatBuilderBody b indentLevel o
      else methodLine ++ ' ' :: formatBody b indentLevel o
    | none => methodLine ++ (if o.semicolon then ";".data else [])
  joinSep o.eol (decLines ++ [methodLine2])

/-- `formatBuildMethod(node, indentLevel, options)`. -/
def formatBuildMethod (b : ABuildMethod) (indentLevel : Nat)
    (o : FormatOptions) : Str :=
  let ind := fIndent o indentLevel
  let decLines := b.decorators.map (fun d => ind ++ formatDecorator d o)
  let bodyStr := formatBuildBody b.rawBody (indentLevel + 1) o
  joinSep o.eol
    (decLines ++ [ind ++ "build() \x7b".data] ++
      (if bodyStr.isEmpty then [] else [bodyStr]) ++ [ind ++ "\x7d".data])

/-- `formatMember(member, indentLevel, options)`. -/
def formatMember (m : AMember) (indentLevel : Nat) (o : FormatOptions) :
    Str :=
  match m with
  | .prop p => formatProperty p indentLevel o
  | .method mm => formatMethod mm indentLevel o
  | .build b => formatBuildMethod b indentLevel o

/-- The member loop of `formatStruct`/`formatClass`: blank lines between
members by kind transition; empty member strings are skipped. -/
def fmtMembersGo (o : FormatOptions) (indentLevel : Nat)
    (lastType : Option Str) : List AMember → List Str
  | [] => []
  | m :: rest =>
    let s := formatMember m (indentLevel + 1) o
    if s.isEmpty then fmtMembersGo o indentLevel lastType rest
    else
      (match lastType with
       | some t =>
         if needsBlankLineBetweenMembers t m.typeName then [[], s] else [s]
       | none => [s]) ++
      fmtMembersGo o indentLevel (some m.typeName) rest

/-- `formatStruct(node, indentLevel, options)`. -/
def formatStruct (name : Str) (decorators : List ADecorator)
    (members : List AMember) (ext : Option Str) (impls : Option (List Str))
    (indentLevel : Nat) (o : FormatOptions) : Str :=
  let ind := fIndent o indentLevel
  let decLines := decorators.map (fun d => ind ++ formatDecorator d o)
  let structLine :=
    ind ++ "struct ".data ++ name ++
    (match ext with
     | some e => " extends ".data ++ e
     | none => []) ++
    (match impls with
     | some is_ =>
       if is_.length > 0 then " implements ".data ++ joinSep ", ".data is_
       else []
     | none => []) ++ " \x7b".data
  joinSep o.eol
    (decLines ++ [structLine] ++ fmtMembersGo o indentLevel none members ++
      [ind ++ "\x7d".data])

/-- `formatClass(node, indentLevel, options)`. -/
def formatClass (name : Str) (decorators : List ADecorator)
    (members : List AMember) (ext : Option Str) (impls : Option (List Str))
    (isAbstract : Bool) (indentLevel : Nat) (o : FormatOptions) : Str :=
  let ind := fIndent o indentLevel
  let decLines := decorators.map (fun d => ind ++ formatDecorator d o)
  let classLine :=
    ind ++ (if isAbstract then "abstract ".data else []) ++
    "class ".data ++ name ++
    (match ext with
     | some e => " extends ".data ++ e
     | none => []) ++
    (match impls with
     | some is_ =>
       if is_.length > 0 then " implements ".data ++ joinSep ", ".data is_
       else []
     | none => []) ++ " \x7b".data
  joinSep o.eol
    (decLines ++ [classLine] ++ fmtMembersGo o indentLevel none members ++
      [ind ++ "\x7d".data])

/-- The member loop of `formatInterface` (no blank-line insertion). -/
def fmtIfaceMembersGo (o : FormatOptions) (indentLevel : Nat) :
    List AMember → List Str
  | [] => []
  | m :: rest =>
    let s := formatMember m (indentLevel + 1) o
    if s.isEmpty then fmtIfaceMembersGo o indentLevel rest
    else s :: fmtIfaceMembersGo o indentLevel rest

/-- `formatInterface(node, indentLevel, options)`. -/
def formatInterface (name : Str) (members : List AMember)
    (ext : Option (List Str)) (indentLevel : Nat) (o : FormatOptions) :
    Str :=
  let ind := fIndent o indentLevel
  let ifaceLine :=
    ind ++ "interface ".data ++ name ++
    (match ext with
     | some es =>
       if es.length > 0 then " extends ".data ++ joinSep ", ".data es else []
     | none => []) ++ " \x7b".data
  joinSep o.eol
    ([ifaceLine] ++ fmtIfaceMembersGo o indentLevel members ++
      [ind ++ "\x7d".data])

/-- `formatFunction(node, indentLevel, options)`. -/
def formatFunction (name : Str) (decorators : List ADecorator)
    (params : List AParam) (returnType : Option Str) (body : Option Str)
    (isAsync isGenerator : Bool) (indentLevel : Nat) (o : FormatOptions) :
    Str :=
  let ind := fIndent o indentLevel
  let decLines := decorators.map (fun d => ind ++ formatDecorator d o)
  let funcLine :=
    ind ++ (if isAsync then "async ".data else []) ++ "function ".data ++
    (if isGenerator then "* ".data else []) ++ name ++
    formatParameters params o ++
    (match returnType with
     | some t => ':' :: ' ' :: t
     | none => [])
  let funcLine2 :=
    match body with
    | some b => funcLine ++ ' ' :: formatBody b indentLevel o
    | none => funcLine ++ (if o.semicolon then ";".data else [])
  joinSep o.eol (decLines ++ [funcLine2])

/-- `formatImport(node, options)`. -/
def formatImport (source : Str) (defaultImport : Option Str)
    (namedImports : Option (List Str)) (namespaceImport : Option Str)
    (o : FormatOptions) : Str :=
  let quote : Str := if o.singleQuote then "'".data else "\"".data
  let semi : Str := if o.semicolon then ";".data else []
  match namespaceImport with
  | some ns =>
    "import * as ".data ++ ns ++ " from ".data ++ quote ++ source ++ quote ++
      semi
  | none =>
    let parts : List Str :=
      (match defaultImport with
       | some d => [d]
       | none => []) ++
      (match namedImports with
       | some ns =>
         if ns.length > 0 then
           [if o.bracketSpacing then
              "\x7b ".data ++ joinSep ", ".data ns ++ " \x7d".data
            else "\x7b".data ++ joinSep ", ".data ns ++ "\x7d".data]
         else []
       | none => [])
    if parts.isEmpty && !source.isEmpty then
      "import ".data ++ quote ++ source ++ quote ++ semi
    else
      "import ".data ++ joinSep ", ".data parts ++ " from ".data ++ quote ++
        source ++ quote ++ semi

/-- `formatNode(node, indentLevel, options)` (recursing into an export's
declaration). -/
def formatNode (o : FormatOptions) : ANode → Nat → Str
  | .importN _ source d n ns, _ => formatImport source d n ns o
  | .exportN _ isDefault decl, lvl =>
    let parts := "export".data ++ (if isDefault then " default".data else [])
    (match decl with
     | some d =>
       parts ++ ' ' :: (formatNode o d lvl).dropWhile isJsSpace
     | none => parts)
  | .structN name decs mems ext impls, lvl =>
    formatStruct name decs mems ext impls lvl o
  | .classN name decs mems ext impls isAbs, lvl =>
    formatClass name decs mems ext impls isAbs lvl o
  | .interfaceN name mems ext, lvl => formatInterface name mems ext lvl o
  | .functionN name decs ps rt body isAsync isGen, lvl =>
    formatFunction name decs ps rt body isAsync isGen lvl o
  | .exprN raw, lvl => fIndent o lvl ++ raw

/-- The node loop of `formatDocument` (blank lines between significant
declarations; empty node strings are skipped). -/
def fmtDocGo (o : FormatOptions) (lastType : Option Str) :
    List ANode → List Str
  | [] => []
  | n :: rest =>
    let s := formatNode o n 0
    if s.isEmpty then fmtDocGo o lastType rest
    else
      (match lastType with
       | some t => if needsBlankLineBetween t n.typeName then [[], s] else [s]
       | none => [s]) ++
      fmtDocGo o (some n.typeName) rest

/-- `formatDocument(document, options)`. -/
def formatDocument (doc : ADoc) (o : FormatOptions) : Str :=
  joinSep o.eol (fmtDocGo o none doc.children) ++ o.eol

/-!
## Formatting provider (`provider.ts`): complexity heuristic, post-format
sanity check and routing
-/

/-- Scan to just past a closing `*/`; `none` when the comment is
unterminated (the lazy `\/\*[\s\S]*?\*\//` alternative then fails to
match). -/
def blockCommentEnd : Str → Option Str
  | [] => none
  | '*' :: '/' :: rest => some rest
  | _ :: rest => blockCommentEnd rest

/-- Fuel-indexed scan counting the global matches of
`/\/\/.*|\/\*[\s\S]*?\*\//g`.  Every step consumes at least one character
of the input (an unterminated `/*` fails the lazy alternative and the
global scan resumes one character later), so fuel `s.length + 1` always
suffices; the fuel only makes the recursion structural. -/
def countCommentMatchesF : Nat → Str → Nat
  | 0, _ => 0
  | _, [] => 0
  | f + 1, '/' :: '/' :: rest =>
    countCommentMatchesF f (rest.dropWhile (fun c => !isNewlineCh c)) + 1
  | f + 1, '/' :: '*' :: rest =>
    (match blockCommentEnd rest with
     | some rest2 => countCommentMatchesF f rest2 + 1
     | none => countCommentMatchesF f ('*' :: rest))
  | f + 1, _ :: rest => countCommentMatchesF f rest

/-- The number of global matches of `/\/\/.*|\/\*[\s\S]*?\*\//g`: the
comment-count used by `hasFormattingIssues`. -/
def countCommentMatches (s : Str) : Nat := countCommentMatchesF (s.length + 1) s

/-- `(s.match(/[{}]/g) || []).length`: every brace character, inside or
outside strings alike. -/
def braceCharCount (s : Str) : Nat :=
  (s.filter (fun c => c = '{' || c = '}')).length

/-- `hasFormattingIssues(original, formatted)`. -/
def hasFormattingIssues (original formatted : Str) : Bool :=
  if countCommentMatches formatted < countCommentMatches original then true
  else if braceCharCount original ≠ braceCharCount formatted then true
  else false

/-- Modelled from the spec ("Brace-count invariant", §8): the count of `{`
and `}` characters located *outside strings*, with single, double and
backtick quote tracking and escape handling.  `provider.ts` has no such
function; this definition exists to state claim C7's "outside strings"
condition. -/
def bracesOutsideStringsGo : Bool → Bool → Bool → Bool → Str → Nat
  | _, _, _, _, [] => 0
  | inS, inD, inT, esc, c :: rest =>
    if esc then bracesOutsideStringsGo inS inD inT false rest
    else if c = '\\' then
      bracesOutsideStringsGo inS inD inT (inS || inD || inT) rest
    else if !inD && !inT && c = '\'' then
      bracesOutsideStringsGo (!inS) inD inT esc rest
    else if !inS && !inT && c = '"' then
      bracesOutsideStringsGo inS (!inD) inT esc rest
    else if !inS && !inD && c = '`' then
      bracesOutsideStringsGo inS inD (!inT) esc rest
    else if inS || inD || inT then bracesOutsideStringsGo inS inD inT esc rest
    else if c = '{' || c = '}' then
      bracesOutsideStringsGo inS inD inT esc rest + 1
    else bracesOutsideStringsGo inS inD inT esc rest

/-- The spec's count of braces outside strings. -/
def bracesOutsideStrings (s : Str) : Nat :=
  bracesOutsideStringsGo false false false false s

/-- The candidate/semicolon counters of `inferSemicolonStyle`. -/
def inferSemicolonGo : List Str → (Nat × Nat)
  | [] => (0, 0)
  | l :: rest =>
    let t := jsTrim l
    let p := inferSemicolonGo rest
    if t.isEmpty then p
    else if t = "\x7b".data || t = "\x7d".data || listEndsWith "\x7b".data t ||
        listEndsWith "\x7d".data t || listEndsWith ",".data t then p
    else (p.1 + 1, p.2 + (if listEndsWith ";".data t then 1 else 0))

/-- `inferSemicolonStyle(text)`.  The source compares the floating-point
ratio `withSemi / candidates >= 0.3`; this is stated exactly over the
rationals (`10 * withSemi ≥ 3 * candidates`), which agrees with the source
except on double-rounding boundary artifacts. -/
def inferSemicolonStyle (text : Str) : Bool :=
  let p := inferSemicolonGo (splitLinesJs text)
  decide (p.1 > 0) && decide (10 * p.2 ≥ 3 * p.1)

/-- A generic leftmost scan trying a matcher at every position that is a
word boundary (start of input or preceded by a non-word character). -/
def probeWordBoundaryGo (matcher : Str → Bool) : Bool → Str → Bool
  | _, [] => false
  | prevWord, c :: rest =>
    ((!prevWord) && matcher (c :: rest)) ||
      probeWordBoundaryGo matcher (isWordCh c) rest

/-- A generic leftmost scan trying a matcher at every position. -/
def probeAnyPos (matcher : Str → Bool) : Str → Bool
  | [] => false
  | c :: rest => matcher (c :: rest) || probeAnyPos matcher rest

/-- The position matcher of `/\bnamespace\s+\w+/`. -/
def namespaceAt (s : Str) : Bool :=
  listStartsWith "namespace".data s &&
    (let r := s.drop 9
     let w := r.takeWhile isJsSpace
     !w.isEmpty && (((r.drop w.length).head?.map isWordCh).getD false))

/-- The position matcher of `/\b(get|set)\s+\w+\s*\(/` (parameterized over
the keyword). -/
def getSetAt (kw : Str) (s : Str) : Bool :=
  listStartsWith kw s &&
    (let r := s.drop kw.length
     let w := r.takeWhile isJsSpace
     !w.isEmpty &&
       (let r2 := r.drop w.length
        let word := r2.takeWhile isWordCh
        !word.isEmpty &&
          (((r2.drop word.length).dropWhile isJsSpace).head? = some '(')))

/-- A word-bounded occurrence of `enum|interface|class|function` at this
position. -/
def boundedKwAt (prevIsWord : Bool) (s : Str) : Bool :=
  !prevIsWord &&
    (["enum", "interface", "class", "function"].map String.data).any
      (fun k =>
        listStartsWith k s && !(((s.drop k.length).head?.map isWordCh).getD
          false))

/-- Scan of the `[^}]*\b(enum|interface|class|function)\b` part of the
struct probe: searches up to the first `}` for a word-bounded keyword. -/
def structInnerGo : Bool → Str → Bool
  | _, [] => false
  | prevW, c :: rest =>
    if c = '}' then false
    else boundedKwAt prevW (c :: rest) || structInnerGo (isWordCh c) rest

/-- The position matcher of
`/struct\s+\w+[^{]*\{[^}]*\b(enum|interface|class|function)\b/s`. -/
def structAt (s : Str) : Bool :=
  listStartsWith "struct".data s &&
    (let r := s.drop 6
     let w := r.takeWhile isJsSpace
     !w.isEmpty &&
       (let r2 := r.drop w.length
        let word := r2.takeWhile isWordCh
        !word.isEmpty &&
          (let r3 := r2.drop word.length
           let upTo := r3.takeWhile (· ≠ '{')
           ((r3.drop upTo.length).head? = some '{') &&
             structInnerGo false (r3.drop (upTo.length + 1)))))

/-- `detectComplexSyntax(text)`. -/
def detectComplexSyntax (text : Str) : Bool :=
  probeWordBoundaryGo namespaceAt false text ||
  probeWordBoundaryGo (getSetAt "get".data) false text ||
  probeWordBoundaryGo (getSetAt "set".data) false text ||
  probeAnyPos structAt text

/-- The outcome of `provideDocumentFormattingEdits`: a whole-document
structural replace, a whole-document fallback replace, or no edits (the
fallback output equals the input). -/
inductive FormatRoute where
  | structural (out : Str)
  | fallbackEdit (out : Str)
  | fallbackNoEdit
  deriving Repr

/-- Whether a route used the basic fallback formatter. -/
def FormatRoute.usedFallback : FormatRoute → Bool
  | .structural _ => false
  | .fallbackEdit _ => true
  | .fallbackNoEdit => true

/-- `formatWithBasicRules(document, options)` of the provider. -/
def providerFallback (text : Str) (tabSize : Nat) (insertSpaces : Bool)
    (eolIsLF : Bool) : FormatRoute :=
  let eol := if eolIsLF then "\n".data else "\r\n".data
  let indentStr := if insertSpaces then List.replicate tabSize ' '
    else "\t".data
  let formatted := formatWithBasicRulesText text ⟨eol, indentStr⟩
  if formatted = text then .fallbackNoEdit else .fallbackEdit formatted

/-- `provideDocumentFormattingEdits`: the three-layer routing — complexity
heuristic, parser diagnostics, post-format sanity check — around the
structural formatter. -/
def provideDocumentFormattingEdits (fuel : Nat) (text : Str) (tabSize : Nat)
    (insertSpaces : Bool) (eolIsLF : Bool) : Option FormatRoute :=
  if detectComplexSyntax text then
    some (providerFallback text tabSize insertSpaces eolIsLF)
  else
    (arkParseRun fuel text).map (fun p =>
      if p.2.errors.length > 0 then
        providerFallback text tabSize insertSpaces eolIsLF
      else
        let fo := { DEFAULT_FORMAT_OPTIONS with
          indentSize := tabSize,
          eol := if eolIsLF then "\n".data else "\r\n".data,
          semicolon := inferSemicolonStyle text }
        let formatted := formatDocument p.1 fo
        if hasFormattingIssues text formatted then
          providerFallback text tabSize insertSpaces eolIsLF
        else .structural formatted)

/-!
## HML (markup) lexer (`hml/lexer.ts`): a mode-stack character scanner
-/

/-- HML token kinds. -/
inductive HTokType where
  | eof | text | comment | tagOpen | tagClose | tagEnd | tagSelfClose
  | name | equals | strT | unquotedValue | interpStart | interpEnd
  | identT | numT | boolT | nullT | undefT | op | punct
  deriving DecidableEq, Repr

/-- An HML token (position metadata omitted). -/
structure HTok where
  type : HTokType
  value : Str
  deriving DecidableEq, Repr

/-- Lexer modes (`data`, `tag`, `interp`). -/
inductive HMode where
  | dataM | tagM | interpM
  deriving DecidableEq, Repr

/-- HML lexer state: remaining input and mode stack (head = top; the base
`data` mode is never popped). -/
structure HLexSt where
  rest : Str
  modes : List HMode
  deriving Repr

def HLexSt.currentMode (st : HLexSt) : HMode := st.modes.head?.getD .dataM

def HLexSt.pushMode (st : HLexSt) (m : HMode) : HLexSt :=
  { st with modes := m :: st.modes }

def HLexSt.popMode (st : HLexSt) : HLexSt :=
  if st.modes.length > 1 then { st with modes := st.modes.tail } else st

/-- The whitespace skipped inside tags and interpolations. -/
def hmlWs (c : Char) : Bool := c = ' ' || c = '\t' || c = '\r' || c = '\n'

def hmlIsNameStart (c : Char) : Bool :=
  ('A' ≤ c && c ≤ 'Z') || ('a' ≤ c && c ≤ 'z') || c = '_' || c = ':' || c = '-'

def hmlIsNameChar (c : Char) : Bool :=
  hmlIsNameStart c || isDigitCh c || c = '.'

def hmlIsIdentStart (c : Char) : Bool :=
  ('A' ≤ c && c ≤ 'Z') || ('a' ≤ c && c ≤ 'z') || c = '_' || c = '$'

def hmlIsIdentChar (c : Char) : Bool := hmlIsIdentStart c || isDigitCh c

/-- The text run of data mode: consumes until the next `<` or `{{`. -/
def hmlTextRun : Str → Str
  | [] => []
  | '<' :: _ => []
  | '{' :: '{' :: _ => []
  | c :: rest => c :: hmlTextRun rest

/-- Comment body scan: chars before `-->`, plus the remainder after it
(`none` when unterminated). -/
def hmlCommentBody : Str → (Str × Option Str)
  | [] => ([], none)
  | '-' :: '-' :: '>' :: rest => ([], some rest)
  | c :: rest =>
    let p := hmlCommentBody rest
    (c :: p.1, p.2)

/-- `readString` body scan with escape flag (the value keeps the quotes). -/
def hmlStrGo (quote : Char) (escaped : Bool) : Str → (Str × Str)
  | [] => ([], [])
  | c :: rest =>
    if !escaped && c = quote then ([c], rest)
    else if !escaped && c = '\\' then
      let p := hmlStrGo quote true rest
      (c :: p.1, p.2)
    else
      let p := hmlStrGo quote false rest
      (c :: p.1, p.2)

/-- `readString()` (input begins at the quote). -/
def hmlReadString : Str → (Str × Str)
  | [] => ([], [])
  | q :: rest =>
    let p := hmlStrGo q false rest
    (q :: p.1, p.2)

/-- `readNumber()` of the HML lexer (the fraction needs no digit after the
dot, unlike the ArkTS lexer). -/
def hmlReadNumber (s : Str) : Str × Str :=
  if listStartsWith "0x".data s || listStartsWith "0X".data s then
    let ds := (s.drop 2).takeWhile isHexDigitCh
    (s.take 2 ++ ds, (s.drop 2).drop ds.length)
  else if listStartsWith "0b".data s || listStartsWith "0B".data s then
    let ds := (s.drop 2).takeWhile (fun c => c = '0' || c = '1')
    (s.take 2 ++ ds, (s.drop 2).drop ds.length)
  else if listStartsWith "0o".data s || listStartsWith "0O".data s then
    let ds := (s.drop 2).takeWhile (fun c => '0' ≤ c && c ≤ '7')
    (s.take 2 ++ ds, (s.drop 2).drop ds.length)
  else
    let ip := s.takeWhile isDigitCh
    let r1 := s.drop ip.length
    let fr : Str × Str :=
      match r1 with
      | '.' :: rest =>
        let ds := rest.takeWhile isDigitCh
        ('.' :: ds, rest.drop ds.length)
      | _ => ([], r1)
    let r2 := fr.2
    let ex : Str × Str :=
      match r2 with
      | e :: rest =>
        if e = 'e' || e = 'E' then
          match rest with
          | sgn :: rest2 =>
            if sgn = '+' || sgn = '-' then
              let ds := rest2.takeWhile isDigitCh
              ([e, sgn] ++ ds, rest2.drop ds.length)
            else
              let ds := rest.takeWhile isDigitCh
              (e :: ds, rest.drop ds.length)
          | [] => ([e], [])
        else ([], r2)
      | [] => ([], r2)
    (ip ++ fr.1 ++ ex.1, ex.2)

/-- The `readOperatorOrPunctuator` candidate list, in source order (note
`>>>` is listed after `>>` and is therefore unreachable). -/
def hmlOpList : List Str :=
  ["===", "!==", "==", "!=", ">=", "<=", "&&", "||", "++", "--",
   "+=", "-=", "*=", "/=", "%=", "=>", "<<", ">>", ">>>",
   "+", "-", "*", "/", "%", ">", "<", "!", "~", "?", ":", "=",
   "&", "|", "^", ".", ",", "(", ")", "[", "]", "\x7b", "\x7d"].map String.data

/-- Candidates classified as `Operator` by the `isOperator` regex; the rest
(`,`, parens, brackets, braces) are `Punctuator`s. -/
def hmlOperatorSet : List Str :=
  ["===", "!==", "==", "!=", ">=", "<=", "&&", "||", "++", "--",
   "+=", "-=", "*=", "/=", "%=", "=>", "<<", ">>", ">>>",
   "+", "-", "*", "/", "%", ">", "<", "!", "~", "?", ":", "=",
   "&", "|", "^", "."].map String.data

/-- `readOperatorOrPunctuator()`. -/
def hmlMatchOp (s : Str) : Option Str :=
  hmlOpList.firstM (fun op => if listStartsWith op s then some op else none)

/-- The whitespace-and-comment skipping at the head of
`readInterpolationToken` (inline `//` and `/* */` comments are consumed and
never emitted); character-for-character the same scan as the UI sub-parser's
`skipWhitespace`. -/
def hmlInterpSkip (s : Str) : Str := uiSkipWs s

/-- `nextTokenInternal()` of the HML lexer. -/
def hmlNextToken (st : HLexSt) : HTok × HLexSt :=
  match _hrest : st.rest with
  | [] => (⟨.eof, []⟩, st)
  | c :: rest =>
    match st.currentMode with
    | .dataM =>
      if listStartsWith "<!--".data st.rest then
        let p := hmlCommentBody (st.rest.drop 4)
        (⟨.comment, p.1⟩, { st with rest := p.2.getD [] })
      else if listStartsWith "\x7b\x7b".data st.rest then
        (⟨.interpStart, "\x7b\x7b".data⟩,
         ({ st with rest := st.rest.drop 2 }).pushMode .interpM)
      else if listStartsWith "</".data st.rest then
        (⟨.tagClose, "</".data⟩,
         ({ st with rest := st.rest.drop 2 }).pushMode .tagM)
      else if c = '<' then
        (⟨.tagOpen, "<".data⟩, ({ st with rest := rest }).pushMode .tagM)
      else
        let run := hmlTextRun st.rest
        (⟨.text, run⟩, { st with rest := st.rest.drop run.length })
    | .tagM =>
      let s1 := st.rest.dropWhile hmlWs
      if listStartsWith "/>".data s1 then
        (⟨.tagSelfClose, "/>".data⟩, ({ st with rest := s1.drop 2 }).popMode)
      else if s1.head? = some '>' then
        (⟨.tagEnd, ">".data⟩, ({ st with rest := s1.drop 1 }).popMode)
      else if listStartsWith "\x7b\x7b".data s1 then
        (⟨.interpStart, "\x7b\x7b".data⟩,
         ({ st with rest := s1.drop 2 }).pushMode .interpM)
      else if s1.head? = some '=' then
        (⟨.equals, "=".data⟩, { st with rest := s1.drop 1 })
      else if s1.head? = some '"' || s1.head? = some '\'' then
        let p := hmlReadString s1
        (⟨.strT, p.1⟩, { st with rest := p.2 })
      else
        match s1 with
        | [] => (⟨.eof, []⟩, { st with rest := [] })
        | d :: rest1 =>
          if hmlIsNameStart d then
            let run := rest1.takeWhile hmlIsNameChar
            (⟨.name, d :: run⟩, { st with rest := rest1.drop run.length })
          else (⟨.unquotedValue, [d]⟩, { st with rest := rest1 })
    | .interpM =>
      let s1 := hmlInterpSkip st.rest
      if listStartsWith "\x7d\x7d".data s1 then
        (⟨.interpEnd, "\x7d\x7d".data⟩, ({ st with rest := s1.drop 2 }).popMode)
      else
        match s1 with
        | [] => (⟨.eof, []⟩, { st with rest := [] })
        | d :: rest1 =>
          if hmlIsIdentStart d then
            let run := rest1.takeWhile hmlIsIdentChar
            let value := d :: run
            let ty :=
              if value = "true".data || value = "false".data then
                HTokType.boolT
              else if value = "null".data then HTokType.nullT
              else if value = "undefined".data then HTokType.undefT
              else HTokType.identT
            (⟨ty, value⟩, { st with rest := rest1.drop run.length })
          else if isDigitCh d ||
              (d = '.' && (rest1.head?.map isDigitCh).getD false) then
            let p := hmlReadNumber s1
            (⟨.numT, p.1⟩, { st with rest := p.2 })
          else if d = '"' || d = '\'' then
            let p := hmlReadString s1
            (⟨.strT, p.1⟩, { st with rest := p.2 })
          else
            match hmlMatchOp s1 with
            | some op =>
              (⟨if hmlOperatorSet.contains op then .op else .punct, op⟩,
               { st with rest := s1.drop op.length })
            | none => (⟨.punct, [d]⟩, { st with rest := rest1 })

/-- Tokenize the whole input (the parser never uses `peekToken`, so the
stream is determined by the input alone).  The final EOF token is not
included: the parser reads an exhausted list as EOF. -/
def hmlTokenizeGo : Nat → HLexSt → Option (List HTok)
  | 0, _ => none
  | f + 1, st =>
    let p := hmlNextToken st
    if p.1.type = .eof then some []
    else (hmlTokenizeGo f p.2).map (p.1 :: ·)

/-- Tokenize an HML input string; each non-EOF token consumes at least one
character, so `length + 1` steps suffice. -/
def hmlTokenize (s : Str) : Option (List HTok) :=
  hmlTokenizeGo (s.length + 1) ⟨s, [.dataM]⟩

/-!
## HML document model (`hml/ast.ts`) and parser (`hml/parser.ts`)
-/

/-- The value of an expression literal.  Numeric literals keep their raw
text (the source stores `Number(raw)`, a float that nothing in the embedded
scope ever reads). -/
inductive LitVal where
  | boolV (b : Bool)
  | nullV
  | numV (raw : Str)
  | strV (s : Str)
  deriving DecidableEq, Repr

/-- The typed expression AST of the markup pipeline. -/
inductive ExprNode where
  | identE (name : Str)
  | litE (v : LitVal) (raw : Str)
  | unaryE (op : Str) (arg : ExprNode)
  | binaryE (op : Str) (l r : ExprNode)
  | logicalE (op : Str) (l r : ExprNode)
  | conditionalE (test cons alt : ExprNode)
  | assignE (op : Str) (l r : ExprNode)
  | memberE (obj prop : ExprNode) (computed : Bool)
  | callE (callee : ExprNode) (args : List ExprNode)
  | arrayE (elems : List ExprNode)
  | objectE (props : List (ExprNode × ExprNode × Bool))
  | groupingE (e : ExprNode)
  deriving Repr

/-- An attribute value (`HmlAttributeValue`). -/
structure HmlAttrValue where
  value : Str
  quote : Option Char
  expression : Option ExprNode
  deriving Repr

/-- An attribute (`HmlAttribute`); `valueKind` is one of `boolean`,
`string`, `expression`, `unquoted`. -/
structure HmlAttr where
  name : Str
  value : Option HmlAttrValue
  valueKind : Str
  deriving Repr

/-- A markup node. -/
inductive HmlNode where
  | textN (value : Str)
  | commentN (value : Str)
  | interpolationN (e : ExprNode)
  | elementN (tagName : Str) (attributes : List HmlAttr)
      (children : List HmlNode) (selfClosing : Bool)
  deriving Repr

def HmlNode.isElement : HmlNode → Bool
  | .elementN .. => true
  | _ => false

def HmlNode.tagName : HmlNode → Str
  | .elementN n _ _ _ => n
  | _ => []

def HmlNode.selfClosing : HmlNode → Bool
  | .elementN _ _ _ sc => sc
  | _ => false

def HmlNode.children : HmlNode → List HmlNode
  | .elementN _ _ c _ => c
  | _ => []

/-- The markup document. -/
structure HmlDocument where
  children : List HmlNode
  deriving Repr

/-- `VOID_TAGS`. -/
def VOID_TAGS : List Str :=
  ["area", "base", "br", "col", "embed", "hr", "img", "input", "link",
   "meta", "param", "source", "track", "wbr"].map String.data

def ASSIGNMENT_OPERATORS : List Str :=
  ["=", "+=", "-=", "*=", "/=", "%="].map String.data

def LOGICAL_OPERATORS : List Str := ["||", "&&"].map String.data

def EQUALITY_OPERATORS : List Str := ["==", "!=", "===", "!=="].map String.data

def RELATIONAL_OPERATORS : List Str := ["<", ">", "<=", ">="].map String.data

def ADDITIVE_OPERATORS : List Str := ["+", "-"].map String.data

def MULTIPLICATIVE_OPERATORS : List Str := ["*", "/", "%"].map String.data

def UNARY_OPERATORS : List Str := ["+", "-", "!", "~"].map String.data

/-- A recorded `ParseError` (message and offending token). -/
structure HErr where
  message : Str
  token : HTok
  deriving DecidableEq, Repr

/-- HML parser state: remaining tokens (head = `this.current`) and the
accumulated error list. -/
structure HSt where
  toks : List HTok
  errors : List HErr
  deriving Repr

def eofHTok : HTok := ⟨.eof, []⟩

def hCur (st : HSt) : HTok := st.toks.head?.getD eofHTok

/-- `advance()` (a past-the-end advance stays at EOF). -/
def hAdvance (st : HSt) : HSt := { st with toks := st.toks.tail }

/-- `reportError(message, this.current)`. -/
def hReport (msg : Str) (st : HSt) : HSt :=
  { st with errors := st.errors ++ [⟨msg, hCur st⟩] }

/-- `consumeUntil(type)`. -/
def hConsumeUntil (ty : HTokType) (st : HSt) : HSt :=
  { st with
    toks := st.toks.dropWhile (fun t => t.type ≠ HTokType.eof && t.type ≠ ty) }

/-- `expect(type)`. -/
def hExpect (ty : HTokType) (st : HSt) : HSt :=
  if (hCur st).type = ty then hAdvance st
  else hReport "Expected token".data st

/-- `expectOperator(operator)`. -/
def hExpectOp (v : Str) (st : HSt) : HSt :=
  if (hCur st).type = HTokType.op && (hCur st).value = v then hAdvance st
  else hReport "Expected operator".data st

/-- `expectPunctuator(punctuator)`. -/
def hExpectPunct (v : Str) (st : HSt) : HSt :=
  if (hCur st).type = HTokType.punct && (hCur st).value = v then hAdvance st
  else hReport "Expected punctuator".data st

/-- `tokenToLiteral(token)` from the HML lexer module. -/
def tokenToLiteral (t : HTok) : ExprNode :=
  if t.type = HTokType.boolT then
    .litE (.boolV (t.value = "true".data)) t.value
  else if t.type = HTokType.nullT then .litE .nullV t.value
  else if t.type = HTokType.numT then .litE (.numV t.value) t.value
  else if t.type = HTokType.strT then
    .litE (.strV (if t.value.length ≥ 2 then (t.value.drop 1).dropLast
      else [])) t.value
  else .litE (.strV t.value) t.value

/-- `parseClosingTag(expected)`: note the `</`, the name and the `>` are all
consumed *before* the name is compared with `expected`. -/
def hmlParseClosingTag (expected : Str) (st : HSt) : Bool × HSt :=
  if (hCur st).type ≠ HTokType.tagClose then (false, st)
  else
    let st1 := hAdvance st
    let pName : Str × HSt :=
      if (hCur st1).type = HTokType.name then ((hCur st1).value, hAdvance st1)
      else ([], hReport "Missing closing tag name".data st1)
    let name := pName.1
    let st2 := pName.2
    let st3 :=
      if (hCur st2).type = HTokType.tagEnd then hAdvance st2
      else
        let st2a := hConsumeUntil HTokType.tagEnd
          (hReport "Missing closing tag end".data st2)
        if (hCur st2a).type = HTokType.tagEnd then hAdvance st2a else st2a
    if name ≠ expected then
      (false, hReport "Expected closing tag".data st3)
    else (true, st3)

/-- `parseText()`. -/
def hmlParseText (st : HSt) : HmlNode × HSt :=
  (.textN (hCur st).value, hAdvance st)

/-- `parseComment()`. -/
def hmlParseComment (st : HSt) : HmlNode × HSt :=
  (.commentN (hCur st).value, hAdvance st)

mutual

/-- `parseExpression()`. -/
def hmlParseExpression (fuel : Nat) (st : HSt) : Option (ExprNode × HSt) :=
  match fuel with
  | 0 => none
  | f + 1 =>
    if (hCur st).type = HTokType.interpEnd then
      some (.litE .nullV "null".data, st)
    else hmlParseAssignment f st

/-- `parseAssignment()`. -/
def hmlParseAssignment (fuel : Nat) (st : HSt) : Option (ExprNode × HSt) :=
  match fuel with
  | 0 => none
  | f + 1 =>
    (hmlParseConditional f st).bind (fun pl =>
      if (hCur pl.2).type = HTokType.op &&
          ASSIGNMENT_OPERATORS.contains (hCur pl.2).value then
        let op := (hCur pl.2).value
        (hmlParseAssignment f (hAdvance pl.2)).map (fun pr =>
          (.assignE op pl.1 pr.1, pr.2))
      else some pl)

/-- `parseConditional()`. -/
def hmlParseConditional (fuel : Nat) (st : HSt) : Option (ExprNode × HSt) :=
  match fuel with
  | 0 => none
  | f + 1 =>
    (hmlParseLogicalOr f st).bind (fun pt =>
      if (hCur pt.2).type = HTokType.op && (hCur pt.2).value = "?".data then
        (hmlParseExpression f (hAdvance pt.2)).bind (fun pc =>
          let st1 := hExpectOp ":".data pc.2
          (hmlParseExpression f st1).map (fun pa =>
            (.conditionalE pt.1 pc.1 pa.1, pa.2)))
      else some pt)

/-- The loop of `parseLogicalOr()`. -/
def hmlParseLogicalOrGo (fuel : Nat) (left : ExprNode) (st : HSt) :
    Option (ExprNode × HSt) :=
  match fuel with
  | 0 => none
  | f + 1 =>
    if (hCur st).type = HTokType.op &&
        LOGICAL_OPERATORS.contains (hCur st).value &&
        (hCur st).value = "||".data then
      (hmlParseLogicalAnd f (hAdvance st)).bind (fun pr =>
        hmlParseLogicalOrGo f (.logicalE "||".data left pr.1) pr.2)
    else some (left, st)

/-- `parseLogicalOr()`. -/
def hmlParseLogicalOr (fuel : Nat) (st : HSt) : Option (ExprNode × HSt) :=
  match fuel with
  | 0 => none
  | f + 1 =>
    (hmlParseLogicalAnd f st).bind (fun pl =>
      hmlParseLogicalOrGo f pl.1 pl.2)

/-- The loop of `parseLogicalAnd()`. -/
def hmlParseLogicalAndGo (fuel : Nat) (left : ExprNode) (st : HSt) :
    Option (ExprNode × HSt) :=
  match fuel with
  | 0 => none
  | f + 1 =>
    if (hCur st).type = HTokType.op &&
        LOGICAL_OPERATORS.contains (hCur st).value &&
        (hCur st).value = "&&".data then
      (hmlParseEquality f (hAdvance st)).bind (fun pr =>
        hmlParseLogicalAndGo f (.logicalE "&&".data left pr.1) pr.2)
    else some (left, st)

/-- `parseLogicalAnd()`. -/
def hmlParseLogicalAnd (fuel : Nat) (st : HSt) : Option (ExprNode × HSt) :=
  match fuel with
  | 0 => none
  | f + 1 =>
    (hmlParseEquality f st).bind (fun pl => hmlParseLogicalAndGo f pl.1 pl.2)

/-- The loop of `parseEquality()`. -/
def hmlParseEqualityGo (fuel : Nat) (left : ExprNode) (st : HSt) :
    Option (ExprNode × HSt) :=
  match fuel with
  | 0 => none
  | f + 1 =>
    if (hCur st).type = HTokType.op &&
        EQUALITY_OPERATORS.contains (hCur st).value then
      let op := (hCur st).value
      (hmlParseRelational f (hAdvance st)).bind (fun pr =>
        hmlParseEqualityGo f (.binaryE op left pr.1) pr.2)
    else some (left, st)

/-- `parseEquality()`. -/
def hmlParseEquality (fuel : Nat) (st : HSt) : Option (ExprNode × HSt) :=
  match fuel with
  | 0 => none
  | f + 1 =>
    (hmlParseRelational f st).bind (fun pl => hmlParseEqualityGo f pl.1 pl.2)

/-- The loop of `parseRelational()`. -/
def hmlParseRelationalGo (fuel : Nat) (left : ExprNode) (st : HSt) :
    Option (ExprNode × HSt) :=
  match fuel with
  | 0 => none
  | f + 1 =>
    if (hCur st).type = HTokType.op &&
        RELATIONAL_OPERATORS.contains (hCur st).value then
      let op := (hCur st).value
      (hmlParseAdditive f (hAdvance st)).bind (fun pr =>
        hmlParseRelationalGo f (.binaryE op left pr.1) pr.2)
    else some (left, st)

/-- `parseRelational()`. -/
def hmlParseRelational (fuel : Nat) (st : HSt) : Option (ExprNode × HSt) :=
  match fuel with
  | 0 => none
  | f + 1 =>
    (hmlParseAdditive f st).bind (fun pl => hmlParseRelationalGo f pl.1 pl.2)

/-- The loop of `parseAdditive()`. -/
def hmlParseAdditiveGo (fuel : Nat) (left : ExprNode) (st : HSt) :
    Option (ExprNode × HSt) :=
  match fuel with
  | 0 => none
  | f + 1 =>
    if (hCur st).type = HTokType.op &&
        ADDITIVE_OPERATORS.contains (hCur st).value then
      let op := (hCur st).value
      (hmlParseMultiplicative f (hAdvance st)).bind (fun pr =>
        hmlParseAdditiveGo f (.binaryE op left pr.1) pr.2)
    else some (left, st)

/-- `parseAdditive()`. -/
def hmlParseAdditive (fuel : Nat) (st : HSt) : Option (ExprNode × HSt) :=
  match fuel with
  | 0 => none
  | f + 1 =>
    (hmlParseMultiplicative f st).bind (fun pl =>
      hmlParseAdditiveGo f pl.1 pl.2)

/-- The loop of `parseMultiplicative()`. -/
def hmlParseMultiplicativeGo (fuel : Nat) (left : ExprNode) (st : HSt) :
    Option (ExprNode × HSt) :=
  match fuel with
  | 0 => none
  | f + 1 =>
    if (hCur st).type = HTokType.op &&
        MULTIPLICATIVE_OPERATORS.contains (hCur st).value then
      let op := (hCur st).value
      (hmlParseUnary f (hAdvance st)).bind (fun pr =>
        hmlParseMultiplicativeGo f (.binaryE op left pr.1) pr.2)
    else some (left, st)

/-- `parseMultiplicative()`. -/
def hmlParseMultiplicative (fuel : Nat) (st : HSt) :
    Option (ExprNode × HSt) :=
  match fuel with
  | 0 => none
  | f + 1 =>
    (hmlParseUnary f st).bind (fun pl => hmlParseMultiplicativeGo f pl.1 pl.2)

/-- `parseUnary()`. -/
def hmlParseUnary (fuel : Nat) (st : HSt) : Option (ExprNode × HSt) :=
  match fuel with
  | 0 => none
  | f + 1 =>
    if (hCur st).type = HTokType.op &&
        UNARY_OPERATORS.contains (hCur st).value then
      let op := (hCur st).value
      (hmlParseUnary f (hAdvance st)).map (fun pa =>
        (.unaryE op pa.1, pa.2))
    else hmlParsePostfix f st

/-- The postfix loop of `parsePostfix()`: member access, computed member,
call. -/
def hmlParsePostfixGo (fuel : Nat) (expr : ExprNode) (st : HSt) :
    Option (ExprNode × HSt) :=
  match fuel with
  | 0 => none
  | f + 1 =>
    if (hCur st).type = HTokType.op && (hCur st).value = ".".data then
      let st1 := hAdvance st
      if (hCur st1).type = HTokType.identT ||
          (hCur st1).type = HTokType.name then
        hmlParsePostfixGo f
          (.memberE expr (.identE (hCur st1).value) false) (hAdvance st1)
      else some (expr, hReport "Expected property name after .".data st1)
    else if (hCur st).type = HTokType.punct && (hCur st).value = "[".data then
      (hmlParseExpression f (hAdvance st)).bind (fun pp =>
        let st1 := hExpectPunct "]".data pp.2
        hmlParsePostfixGo f (.memberE expr pp.1 true) st1)
    else if (hCur st).type = HTokType.punct && (hCur st).value = "(".data then
      (hmlParseArguments f st).bind (fun pa =>
        hmlParsePostfixGo f (.callE expr pa.1) pa.2)
    else some (expr, st)

/-- `parsePostfix()`. -/
def hmlParsePostfix (fuel : Nat) (st : HSt) : Option (ExprNode × HSt) :=
  match fuel with
  | 0 => none
  | f + 1 =>
    (hmlParsePrimary f st).bind (fun pe => hmlParsePostfixGo f pe.1 pe.2)

/-- The element loop of `parseArguments()`. -/
def hmlParseArgumentsGo (fuel : Nat) (acc : List ExprNode) (st : HSt) :
    Option (List ExprNode × HSt) :=
  match fuel with
  | 0 => none
  | f + 1 =>
    if (hCur st).type = HTokType.punct && (hCur st).value = ")".data then
      some (acc, st)
    else if (hCur st).type = HTokType.eof ||
        (hCur st).type = HTokType.interpEnd then
      some (acc, hReport "Unterminated argument list".data st)
    else
      (hmlParseExpression f st).bind (fun pa =>
        let acc' := acc ++ [pa.1]
        if (hCur pa.2).type = HTokType.punct &&
            (hCur pa.2).value = ",".data then
          hmlParseArgumentsGo f acc' (hAdvance pa.2)
        else some (acc', pa.2))

/-- `parseArguments()`. -/
def hmlParseArguments (fuel : Nat) (st : HSt) :
    Option (List ExprNode × HSt) :=
  match fuel with
  | 0 => none
  | f + 1 =>
    let st1 := hExpectPunct "(".data st
    (hmlParseArgumentsGo f [] st1).map (fun pa =>
      (pa.1, hExpectPunct ")".data pa.2))

/-- `parsePrimary()`. -/
def hmlParsePrimary (fuel : Nat) (st : HSt) : Option (ExprNode × HSt) :=
  match fuel with
  | 0 => none
  | f + 1 =>
    let t := hCur st
    if t.type = HTokType.identT || t.type = HTokType.name then
      some (.identE t.value, hAdvance st)
    else if t.type = HTokType.boolT || t.type = HTokType.nullT ||
        t.type = HTokType.numT || t.type = HTokType.strT then
      some (tokenToLiteral t, hAdvance st)
    else if t.type = HTokType.punct && t.value = "(".data then
      (hmlParseExpression f (hAdvance st)).map (fun pe =>
        (.groupingE pe.1, hExpectPunct ")".data pe.2))
    else if t.type = HTokType.punct && t.value = "[".data then
      hmlParseArray f st
    else if t.type = HTokType.punct && t.value = "\x7b".data then
      hmlParseObject f st
    else
      some (.identE "_".data,
        hAdvance (hReport "Unexpected expression token".data st))

/-- The element loop of `parseArray()`. -/
def hmlParseArrayGo (fuel : Nat) (acc : List ExprNode) (st : HSt) :
    Option (List ExprNode × HSt) :=
  match fuel with
  | 0 => none
  | f + 1 =>
    if (hCur st).type = HTokType.punct && (hCur st).value = "]".data then
      some (acc, st)
    else if (hCur st).type = HTokType.eof ||
        (hCur st).type = HTokType.interpEnd then
      some (acc, hReport "Unterminated array literal".data st)
    else
      (hmlParseExpression f st).bind (fun pe =>
        let acc' := acc ++ [pe.1]
        if (hCur pe.2).type = HTokType.punct &&
            (hCur pe.2).value = ",".data then
          hmlParseArrayGo f acc' (hAdvance pe.2)
        else some (acc', pe.2))

/-- `parseArray()`. -/
def hmlParseArray (fuel : Nat) (st : HSt) : Option (ExprNode × HSt) :=
  match fuel with
  | 0 => none
  | f + 1 =>
    let st1 := hExpectPunct "[".data st
    (hmlParseArrayGo f [] st1).map (fun pe =>
      (.arrayE pe.1, hExpectPunct "]".data pe.2))

/-- `parsePropertyKey()`. -/
def hmlParsePropertyKey (fuel : Nat) (st : HSt) : Option (ExprNode × HSt) :=
  match fuel with
  | 0 => none
  | f + 1 =>
    let t := hCur st
    if t.type = HTokType.identT || t.type = HTokType.name then
      some (.identE t.value, hAdvance st)
    else if t.type = HTokType.strT || t.type = HTokType.numT ||
        t.type = HTokType.boolT then
      some (tokenToLiteral t, hAdvance st)
    else if t.type = HTokType.punct && t.value = "[".data then
      (hmlParseExpression f (hAdvance st)).map (fun pe =>
        (pe.1, hExpectPunct "]".data pe.2))
    else
      some (.identE "_".data,
        hAdvance (hReport "Invalid object key".data st))

/-- The property loop of `parseObject()`. -/
def hmlParseObjectGo (fuel : Nat) (acc : List (ExprNode × ExprNode × Bool))
    (st : HSt) : Option (List (ExprNode × ExprNode × Bool) × HSt) :=
  match fuel with
  | 0 => none
  | f + 1 =>
    if (hCur st).type = HTokType.punct && (hCur st).value = "\x7d".data then
      some (acc, st)
    else if (hCur st).type = HTokType.eof ||
        (hCur st).type = HTokType.interpEnd then
      some (acc, hReport "Unterminated object literal".data st)
    else
      (hmlParsePropertyKey f st).bind (fun pk =>
        (if (hCur pk.2).type = HTokType.punct &&
            (hCur pk.2).value = ":".data then
          (hmlParseExpression f (hAdvance pk.2)).map (fun pv =>
            ((pv.1, false), pv.2))
        else some ((pk.1, true), pk.2) :
          Option ((ExprNode × Bool) × HSt)).bind (fun pv =>
          let acc' := acc ++ [(pk.1, pv.1.1, pv.1.2)]
          if (hCur pv.2).type = HTokType.punct &&
              (hCur pv.2).value = ",".data then
            hmlParseObjectGo f acc' (hAdvance pv.2)
          else some (acc', pv.2)))

/-- `parseObject()`. -/
def hmlParseObject (fuel : Nat) (st : HSt) : Option (ExprNode × HSt) :=
  match fuel with
  | 0 => none
  | f + 1 =>
    let st1 := hExpectPunct "\x7b".data st
    (hmlParseObjectGo f [] st1).map (fun pe =>
      (.objectE pe.1, hExpectPunct "\x7d".data pe.2))

end

/-- The tag-name step of `parseElement()`: a `Name` token yields its value
and advances, anything else yields `"unknown"` and records the error. -/
def hmlElemName (st : HSt) : Str × HSt :=
  if (hCur st).type = HTokType.name then ((hCur st).value, hAdvance st)
  else ("unknown".data, hReport "Missing tag name".data st)

/-- The tag-end step of `parseElement()` for non-self-closing tags: consume
`>` if present, otherwise report and scan forward to the next `>`. -/
def hmlSkipToTagEnd (st2 : HSt) : HSt :=
  if (hCur st2).type = HTokType.tagEnd then hAdvance st2
  else
    let st2a := hConsumeUntil HTokType.tagEnd
      (hReport "Missing tag end".data st2)
    if (hCur st2a).type = HTokType.tagEnd then hAdvance st2a else st2a

mutual

/-- `parseNode()`: `none` result means the caller advances past the
token. -/
def hmlParseNode (fuel : Nat) (st : HSt) : Option (Option HmlNode × HSt) :=
  match fuel with
  | 0 => none
  | f + 1 =>
    match (hCur st).type with
    | .text =>
      let p := hmlParseText st
      some (some p.1, p.2)
    | .comment =>
      let p := hmlParseComment st
      some (some p.1, p.2)
    | .tagOpen =>
      (hmlParseElement f st).map (fun p => (some p.1, p.2))
    | .tagClose =>
      let st1 := hConsumeUntil HTokType.tagEnd
        (hReport "Unexpected closing tag".data st)
      let st2 := if (hCur st1).type = HTokType.tagEnd then hAdvance st1
        else st1
      some (none, st2)
    | .interpStart =>
      (hmlParseInterpolation f st).map (fun p => (some p.1, p.2))
    | _ => some (none, st)

/-- `parseInterpolation()`. -/
def hmlParseInterpolation (fuel : Nat) (st : HSt) :
    Option (HmlNode × HSt) :=
  match fuel with
  | 0 => none
  | f + 1 =>
    let st1 := hExpect HTokType.interpStart st
    (hmlParseExpression f st1).map (fun pe =>
      let st2 :=
        if (hCur pe.2).type = HTokType.interpEnd then hAdvance pe.2
        else hReport "Missing interpolation end".data pe.2
      (.interpolationN pe.1, st2))

/-- `parseAttribute()` (the current token is a `Name`). -/
def hmlParseAttribute (fuel : Nat) (st : HSt) : Option (HmlAttr × HSt) :=
  match fuel with
  | 0 => none
  | f + 1 =>
    let name := (hCur st).value
    let st1 := hAdvance st
    if (hCur st1).type ≠ HTokType.equals then
      some (⟨name, none, "boolean".data⟩, st1)
    else
      let st2 := hAdvance st1
      let vt := hCur st2
      if vt.type = HTokType.strT then
        let raw := vt.value
        let q : Char := if listStartsWith "\"".data raw then '"' else '\''
        some (⟨name, some ⟨(raw.drop 1).dropLast, some q, none⟩,
          "string".data⟩, hAdvance st2)
      else if vt.type = HTokType.interpStart then
        (hmlParseExpression f (hAdvance st2)).map (fun pe =>
          let st3 :=
            if (hCur pe.2).type = HTokType.interpEnd then hAdvance pe.2
            else hReport "Missing interpolation end in attribute".data pe.2
          (⟨name, some ⟨[], none, some pe.1⟩, "expression".data⟩, st3))
      else if vt.type = HTokType.name || vt.type = HTokType.unquotedValue
      then
        some (⟨name, some ⟨vt.value, none, none⟩, "unquoted".data⟩,
          hAdvance st2)
      else
        some (⟨name, some ⟨[], none, none⟩, "unquoted".data⟩,
          hReport "Missing attribute value".data st2)

/-- The attribute loop of `parseElement()`. -/
def hmlParseAttrsGo (fuel : Nat) (acc : List HmlAttr) (st : HSt) :
    Option (List HmlAttr × HSt) :=
  match fuel with
  | 0 => none
  | f + 1 =>
    if (hCur st).type = HTokType.name then
      (hmlParseAttribute f st).bind (fun pa =>
        hmlParseAttrsGo f (acc ++ [pa.1]) pa.2)
    else some (acc, st)

/-- The children loop of `parseElement()`: a `TagClose` is handed to
`parseClosingTag`; a `false` answer leaves the loop running at whatever the
closing-tag parse left as current. -/
def hmlParseChildrenGo (fuel : Nat) (tagName : Str)
    (attributes : List HmlAttr) (acc : List HmlNode) (st : HSt) :
    Option (HmlNode × HSt) :=
  match fuel with
  | 0 => none
  | f + 1 =>
    if (hCur st).type = HTokType.eof then
      some (.elementN tagName attributes acc false, st)
    else if (hCur st).type = HTokType.tagClose then
      match hmlParseClosingTag tagName st with
      | (true, st2) => some (.elementN tagName attributes acc false, st2)
      | (false, st2) => hmlParseChildrenGo f tagName attributes acc st2
    else
      (hmlParseNode f st).bind (fun pn =>
        match pn.1 with
        | some n => hmlParseChildrenGo f tagName attributes (acc ++ [n]) pn.2
        | none => hmlParseChildrenGo f tagName attributes acc (hAdvance pn.2))

/-- `parseElement()`: tag name via `hmlElemName`, attribute loop, then the
self-closing, void-tag (tag-end skip inlined into both uses, it is a pure
function of the post-attribute state) and children cases. -/
def hmlParseElement (fuel : Nat) (st : HSt) : Option (HmlNode × HSt) :=
  match fuel with
  | 0 => none
  | f + 1 =>
    let pName := hmlElemName (hExpect HTokType.tagOpen st)
    (hmlParseAttrsGo f [] pName.2).bind (fun pa =>
      if (hCur pa.2).type = HTokType.tagSelfClose then
        some (.elementN pName.1 pa.1 [] true, hAdvance pa.2)
      else if VOID_TAGS.contains pName.1 then
        some (.elementN pName.1 pa.1 [] true, hmlSkipToTagEnd pa.2)
      else hmlParseChildrenGo f pName.1 pa.1 [] (hmlSkipToTagEnd pa.2))

end

/-- The node loop of `parseDocument()`. -/
def hmlParseDocumentGo (fuel : Nat) (acc : List HmlNode) (st : HSt) :
    Option (List HmlNode × HSt) :=
  match fuel with
  | 0 => none
  | f + 1 =>
    if (hCur st).type = HTokType.eof then some (acc, st)
    else
      (hmlParseNode f st).bind (fun pn =>
        match pn.1 with
        | some n => hmlParseDocumentGo f (acc ++ [n]) pn.2
        | none => hmlParseDocumentGo f acc (hAdvance pn.2))

/-- `HmlParser.parseDocument()`, over a token list. -/
def hmlParseDocument (fuel : Nat) (st : HSt) :
    Option (HmlDocument × HSt) :=
  (hmlParseDocumentGo fuel [] st).map (fun p => (⟨p.1⟩, p.2))

/-- Constructing `new HmlParser(text)` and running `parseDocument()`. -/
def hmlParseRun (fuel : Nat) (s : Str) : Option (HmlDocument × HSt) :=
  (hmlTokenize s).bind (fun ts => hmlParseDocument fuel ⟨ts, []⟩)

/-!
## Concrete inputs used by the claim theorems
-/

/-- The token stream of `function f(5)`. -/
def funF5Toks : List ATok :=
  [⟨.kw, "function".data⟩, ⟨.ws, " ".data⟩, ⟨.ident, "f".data⟩,
   ⟨.punct, "(".data⟩, ⟨.num, "5".data⟩, ⟨.punct, ")".data⟩]

/-- The parser state reached inside `parseParameters` on `function f(5)`:
the cursor is at the `5` of the parameter list. -/
def stuckToks : List ATok := [⟨.num, "5".data⟩, ⟨.punct, ")".data⟩]

/-- The decorator round-trip input (from the repository's own
`parser.test.js`). -/
def c4Input : Str :=
  "@Preview(\x7b title: 'Test' \x7d)\nstruct A \x7b\n  build() \x7b\n    Text('x')\n  \x7d\n\x7d\n".data

/-- The original text of the brace-count counterexample: one `{` inside a
string literal and no brace outside any string. -/
def c7Orig : Str := "'\x7b'".data

/-- The `FormatOptions` the provider builds for `c7Orig` (tab size 2, LF
end-of-line, inferred semicolon style). -/
def c7Fo : FormatOptions :=
  { DEFAULT_FORMAT_OPTIONS with
    indentSize := 2, eol := "\n".data,
    semicolon := inferSemicolonStyle c7Orig }

/-- The token stream of `</a>`. -/
def c8Toks : List HTok :=
  [⟨.tagClose, "</".data⟩, ⟨.name, "a".data⟩, ⟨.tagEnd, ">".data⟩]

/-!
## Supporting lemmas
-/

theorem paramsGo_step (f : Nat) (acc : List AParam) :
    arkParseParametersGo (f + 2) acc stuckToks =
      arkParseParametersGo (f + 1) (acc ++ []) stuckToks := rfl

/-- The `parseParameters` loop makes no progress at a non-identifier
parameter position: on the token state `5 )` it exhausts every fuel. -/
theorem paramsGo_stuck : ∀ (f : Nat) (acc : List AParam),
    arkParseParametersGo f acc stuckToks = none := by
  intro f
  induction f with
  | zero => intro acc; rfl
  | succ g ih =>
    intro acc
    match g with
    | 0 => rfl
    | g' + 1 =>
      rw [paramsGo_step]
      exact ih _

/-- `parseTopLevel` on the tokens of `function f(5)` runs out of any fuel
inside the parameter loop. -/
theorem arkTopLevel_funF5_none (g : Nat) :
    arkParseTopLevel (g + 1) funF5Toks = none := by
  have hp := paramsGo_stuck (g + 1) []
  simp +decide [arkParseTopLevel, arkParseDecorators, arkParseDecoratorsGo,
    arkParseDecorator, arkParseFunction, arkParseParameters, arkParseImport,
    isKwV, isPunctV, isOpV, curTok, arkSkipWs, arkSkipWsC, eofATok,
    funF5Toks, hp]
  exact paramsGo_stuck (g + 1) []

/-- The children loop of `parseElement` only ever returns an element with
the tag name and attributes it was given, and with `selfClosing = false`. -/
theorem hmlParseChildrenGo_shape :
    ∀ (f : Nat) (tag : Str) (attrs : List HmlAttr) (acc : List HmlNode)
      (st : HSt) (n : HmlNode) (st' : HSt),
      hmlParseChildrenGo f tag attrs acc st = some (n, st') →
      ∃ cs, n = .elementN tag attrs cs false := by
  intro f
  induction f with
  | zero => intro tag attrs acc st n st' h; simp [hmlParseChildrenGo] at h
  | succ g ih =>
    intro tag attrs acc st n st' h
    rw [hmlParseChildrenGo] at h
    split at h
    · simp at h
      exact ⟨acc, h.1.symm⟩
    · split at h
      · rcases hp : hmlParseClosingTag tag st with ⟨b, st2⟩
        rw [hp] at h
        cases b with
        | true =>
          simp at h
          exact ⟨acc, h.1.symm⟩
        | false =>
          exact ih _ _ _ _ _ _ h
      · cases hpn : hmlParseNode g st with
        | none => rw [hpn] at h; simp at h
        | some pn =>
          rw [hpn] at h
          simp only [Option.some_bind] at h
          match pn with
          | (some nd, st2) => exact ih _ _ _ _ _ _ h
          | (none, st2) => exact ih _ _ _ _ _ _ h

end BetterArkts

namespace BetterArkts

/-!
## Supporting lemmas for the fallback formatter (claims C2 and C3)
-/

theorem dropWhile_dropWhile {α : Type} (p : α → Bool) (l : List α) :
    (l.dropWhile p).dropWhile p = l.dropWhile p := by
  induction l with
  | nil => rfl
  | cons c r ih =>
    by_cases h : p c
    · simpa [List.dropWhile_cons, h] using ih
    · simp [List.dropWhile_cons, h]

theorem head?_dropWhile_false {α : Type} (p : α → Bool) (l : List α) (c : α)
    (hc : (l.dropWhile p).head? = some c) : p c = false := by
  have h := List.head?_dropWhile_not p l
  rw [hc] at h
  simpa using h

theorem dropWhile_head_false {α : Type} (p : α → Bool) (l : List α)
    (h : ∀ c, l.head? = some c → p c = false) : l.dropWhile p = l := by
  cases l with
  | nil => rfl
  | cons c r => simp [List.dropWhile_cons, h c rfl]

theorem jsTrim_dropWhile (l : Str) :
    (jsTrim l).dropWhile isJsSpace = jsTrim l := by
  apply dropWhile_head_false
  intro c hc
  obtain ⟨u, hu⟩ := List.dropWhile_suffix (l := (l.dropWhile isJsSpace).reverse)
    (p := isJsSpace)
  have hpre : jsTrim l ++ u.reverse = l.dropWhile isJsSpace := by
    have := congrArg List.reverse hu
    simpa [jsTrim, List.reverse_append] using this
  have hhead : (l.dropWhile isJsSpace).head? = some c := by
    rw [← hpre]
    cases hjt : jsTrim l with
    | nil => rw [hjt] at hc; simp at hc
    | cons a r =>
      rw [hjt] at hc
      simp at hc
      simp [hc]
  exact head?_dropWhile_false _ _ _ hhead

theorem jsTrim_reverse_dropWhile (l : Str) :
    (jsTrim l).reverse.dropWhile isJsSpace = (jsTrim l).reverse := by
  simp only [jsTrim, List.reverse_reverse]
  exact dropWhile_dropWhile _ _

theorem jsTrim_idem (l : Str) : jsTrim (jsTrim l) = jsTrim l := by
  conv_lhs => rw [jsTrim]
  rw [jsTrim_dropWhile, jsTrim_reverse_dropWhile, List.reverse_reverse]

theorem jsTrim_prepend_spaces (pre l : Str)
    (h : ∀ c ∈ pre, isJsSpace c = true) :
    jsTrim (pre ++ l) = jsTrim l := by
  unfold jsTrim
  rw [List.dropWhile_append_of_pos h]

theorem mem_repeatStr {c : Char} {u : Str} {n : Nat}
    (h : c ∈ repeatStr u n) : c ∈ u := by
  unfold repeatStr at h
  simp only [List.mem_flatten, List.mem_replicate] at h
  obtain ⟨l, ⟨-, hl⟩, hc⟩ := h
  exact hl ▸ hc

theorem mem_jsTrim {c : Char} {l : Str} (h : c ∈ jsTrim l) : c ∈ l := by
  simp only [jsTrim, List.mem_reverse] at h
  have h2 := (List.dropWhile_suffix isJsSpace).subset h
  rw [List.mem_reverse] at h2
  exact (List.dropWhile_suffix isJsSpace).subset h2

theorem reindentStep_line (u : Str) (b : Nat) (st : RSt) (t : Str) :
    ∃ k, (reindentStep u b st t).1 = repeatStr u k ++ t := by
  simp only [reindentStep]
  split
  · split_ifs <;> exact ⟨_, rfl⟩
  · exact ⟨_, rfl⟩

theorem reindentStep_inDoc (u : Str) (b : Nat) (st : RSt) (t : Str) :
    (reindentStep u b st t).2.inDocComment = false := rfl

theorem jsTrim_reindentStep (u : Str) (b : Nat) (st : RSt) (l : Str)
    (hu : ∀ c ∈ u, c = ' ' ∨ c = '\t') :
    jsTrim (reindentStep u b st (jsTrim l)).1 = jsTrim l := by
  obtain ⟨k, hk⟩ := reindentStep_line u b st (jsTrim l)
  rw [hk, jsTrim_prepend_spaces, jsTrim_idem]
  intro c hc
  rcases hu c (mem_repeatStr hc) with h | h <;> simp [h, isJsSpace]

theorem nonBlankTrimsL_cons (l : Str) (ls : List Str) :
    nonBlankTrimsL (l :: ls) =
      if (jsTrim l).isEmpty then nonBlankTrimsL ls
      else jsTrim l :: nonBlankTrimsL ls := by
  by_cases h : (jsTrim l).isEmpty <;>
    simp [nonBlankTrimsL, List.filter_cons, h]


theorem splitLinesJs_ne_nil (l : Str) : splitLinesJs l ≠ [] := by
  induction l using splitLinesJs.induct <;> simp [splitLinesJs] <;>
    split <;> simp

theorem splitLinesJs_no_nl (l : Str) (h : '\n' ∉ l) : splitLinesJs l = [l] := by
  induction l using splitLinesJs.induct with
  | case1 => rfl
  | case2 rest => simp at h
  | case3 rest => simp at h
  | case4 c rest h1 h2 ih =>
    exact absurd ih (splitLinesJs_ne_nil rest)
  | case5 c rest h1 h2 l' ls' heq ih =>
    have hrest : '\n' ∉ rest := fun hm => h (List.mem_cons_of_mem _ hm)
    rw [splitLinesJs]
    · rw [ih hrest]
    · exact h1
    · exact h2



theorem splitLinesJs_cons_ne (c : Char) (rest : Str) (hc1 : c ≠ '\n')
    (hc2 : c ≠ '\r') :
    splitLinesJs (c :: rest) =
      match splitLinesJs rest with
      | [] => [[c]]
      | l :: ls => (c :: l) :: ls := by
  rw [splitLinesJs]
  · intro r hcr; exact absurd hcr hc2
  · intro hcn; exact absurd hcn hc1

theorem splitLinesJs_line_append (eol : Str)
    (heol : eol = "\n".data ∨ eol = "\r\n".data) :
    ∀ (l r : Str), (∀ c ∈ l, c ≠ '\n' ∧ c ≠ '\r') →
      splitLinesJs (l ++ eol ++ r) = l :: splitLinesJs r := by
  intro l
  induction l with
  | nil =>
    intro r _
    rcases heol with h | h <;> subst h <;> rfl
  | cons c l' ih =>
    intro r hl
    obtain ⟨hc1, hc2⟩ := hl c (List.mem_cons_self _ _)
    have hl' : ∀ d ∈ l', d ≠ '\n' ∧ d ≠ '\r' :=
      fun d hd => hl d (List.mem_cons_of_mem _ hd)
    have : (c :: l') ++ eol ++ r = c :: (l' ++ eol ++ r) := by simp
    rw [this, splitLinesJs_cons_ne c _ hc1 hc2, ih r hl']

theorem joinSep_split (eol : Str)
    (heol : eol = "\n".data ∨ eol = "\r\n".data) :
    ∀ (lines : List Str), lines ≠ [] →
      (∀ l ∈ lines, ∀ c ∈ l, c ≠ '\n' ∧ c ≠ '\r') →
      splitLinesJs (joinSep eol lines) = lines := by
  intro lines
  induction lines with
  | nil => intro h; exact absurd rfl h
  | cons l ls ih =>
    intro _ hch
    cases ls with
    | nil =>
      apply splitLinesJs_no_nl
      intro hm
      exact ((hch l (List.mem_cons_self _ _)) '\n' hm).1 rfl
    | cons l2 ls' =>
      have hj : joinSep eol (l :: l2 :: ls') =
          l ++ eol ++ joinSep eol (l2 :: ls') := by
        rw [joinSep]
        simp
      rw [hj, splitLinesJs_line_append eol heol l _
            (hch l (List.mem_cons_self _ _)),
          ih (by simp) (fun x hx => hch x (List.mem_cons_of_mem _ hx))]



theorem splitLinesJs_mem_no_nl (s : Str) : ∀ l ∈ splitLinesJs s, '\n' ∉ l := by
  induction s using splitLinesJs.induct with
  | case1 =>
    intro l hl
    simp [splitLinesJs] at hl
    subst hl
    exact List.not_mem_nil _
  | case2 rest ih =>
    intro l hl
    rw [show splitLinesJs ('\r' :: '\n' :: rest) = [] :: splitLinesJs rest
      from rfl] at hl
    rcases List.mem_cons.mp hl with h | h
    · simp [h]
    · exact ih l h
  | case3 rest ih =>
    intro l hl
    rw [show splitLinesJs ('\n' :: rest) = [] :: splitLinesJs rest
      from rfl] at hl
    rcases List.mem_cons.mp hl with h | h
    · simp [h]
    · exact ih l h
  | case4 c rest h1 h2 ih => exact absurd ih (splitLinesJs_ne_nil rest)
  | case5 c rest h1 h2 l' ls' heq ih =>
    intro l hl
    have hs : splitLinesJs (c :: rest) = (c :: l') :: ls' := by
      rw [splitLinesJs]
      · rw [heq]
      · exact h1
      · exact h2
    rw [hs] at hl
    rcases List.mem_cons.mp hl with h | h
    · subst h
      intro hm
      rcases List.mem_cons.mp hm with h | h
      · exact h2 h.symm
      · exact ih l' (by rw [heq]; exact List.mem_cons_self _ _) h
    · exact ih l (by rw [heq]; exact List.mem_cons_of_mem _ h)



theorem nonBlankTrimsL_append (xs ys : List Str) :
    nonBlankTrimsL (xs ++ ys) = nonBlankTrimsL xs ++ nonBlankTrimsL ys := by
  simp [nonBlankTrimsL]

theorem nonBlankTrimsL_blank (xs : List Str)
    (h : ∀ l ∈ xs, (jsTrim l).isEmpty = true) : nonBlankTrimsL xs = [] := by
  simp only [nonBlankTrimsL, List.filter_eq_nil_iff, List.mem_map]
  rintro t ⟨l, hl, rfl⟩
  simp [h l hl]

theorem dtb_decomp (ls : List Str) :
    ls = dropTrailingBlankLines ls ++
      (ls.reverse.takeWhile (fun l => (jsTrim l).isEmpty)).reverse := by
  conv_lhs => rw [← List.reverse_reverse ls,
    ← List.takeWhile_append_dropWhile (p := fun l => (jsTrim l).isEmpty)
      (l := ls.reverse)]
  rw [List.reverse_append]
  rfl

theorem dtb_blank_suffix (ls : List Str) :
    ∀ l ∈ (ls.reverse.takeWhile (fun l => (jsTrim l).isEmpty)).reverse,
      (jsTrim l).isEmpty = true := by
  intro l hl
  rw [List.mem_reverse] at hl
  exact List.mem_takeWhile_imp (p := fun l => (jsTrim l).isEmpty) hl

theorem nonBlankTrimsL_dtb (ls : List Str) :
    nonBlankTrimsL (dropTrailingBlankLines ls) = nonBlankTrimsL ls := by
  conv_rhs => rw [dtb_decomp ls]
  rw [nonBlankTrimsL_append, nonBlankTrimsL_blank _ (dtb_blank_suffix ls),
    List.append_nil]

theorem mem_dtb {l : Str} {ls : List Str}
    (h : l ∈ dropTrailingBlankLines ls) : l ∈ ls := by
  unfold dropTrailingBlankLines at h
  rw [List.mem_reverse] at h
  have := (List.dropWhile_suffix (fun l => (jsTrim l).isEmpty)).subset h
  rw [List.mem_reverse] at this
  exact this

theorem dtb_append_blank (xs B : List Str)
    (h : ∀ l ∈ B, (jsTrim l).isEmpty = true) :
    dropTrailingBlankLines (xs ++ B) = dropTrailingBlankLines xs := by
  unfold dropTrailingBlankLines
  rw [List.reverse_append, List.dropWhile_append_of_pos]
  intro l hl
  rw [List.mem_reverse] at hl
  exact h l hl

theorem dtb_idem (ls : List Str) :
    dropTrailingBlankLines (dropTrailingBlankLines ls) =
      dropTrailingBlankLines ls := by
  unfold dropTrailingBlankLines
  rw [List.reverse_reverse, dropWhile_dropWhile]

theorem dtb_getLast_nonblank (ls : List Str) (z : Str)
    (hz : (dropTrailingBlankLines ls).getLast? = some z) :
    (jsTrim z).isEmpty = false := by
  unfold dropTrailingBlankLines at hz
  rw [List.getLast?_reverse] at hz
  exact head?_dropWhile_false (fun l => (jsTrim l).isEmpty) ls.reverse z hz



theorem goLines_trims (u : Str) (b : Nat)
    (hu : ∀ c ∈ u, c = ' ' ∨ c = '\t') :
    ∀ (ls : List Str) (st : RSt), st.inDocComment = false →
      (∀ l ∈ ls, listStartsWith "/**".data (jsTrim l) = false) →
      nonBlankTrimsL (goLines u b st ls) = nonBlankTrimsL ls := by
  intro ls
  induction ls with
  | nil => intro st _ _; rfl
  | cons l rest ih =>
    intro st hst hdoc
    have hdocl := hdoc l (List.mem_cons_self _ _)
    have hdocr : ∀ l' ∈ rest, listStartsWith "/**".data (jsTrim l') = false :=
      fun l' hl' => hdoc l' (List.mem_cons_of_mem _ hl')
    simp only [goLines]
    split_ifs with h1 h2 h3 h4 h5
    · rw [nonBlankTrimsL_cons, nonBlankTrimsL_cons]
      simp only [show (jsTrim ([] : Str)).isEmpty = true from rfl, if_true, h1]
      exact ih _ hst hdocr
    · rw [nonBlankTrimsL_cons]
      simp only [h1, if_true]
      exact ih _ hst hdocr
    · rw [Bool.and_eq_true] at h3
      rw [hdocl] at h3
      exact absurd h3.1 (by simp)
    · rw [hst] at h4
      exact absurd h4 (by simp)
    · rw [hst] at h4
      exact absurd h4 (by simp)
    · rw [nonBlankTrimsL_cons, nonBlankTrimsL_cons]
      rw [jsTrim_reindentStep u b st l hu]
      simp only [h1, if_false]
      rw [ih _ (reindentStep_inDoc u b st (jsTrim l)) hdocr]



theorem goLines_emitted (u : Str) (b : Nat)
    (hu : ∀ c ∈ u, c = ' ' ∨ c = '\t') :
    ∀ (ls : List Str) (st : RSt), st.inDocComment = false →
      (∀ l ∈ ls, listStartsWith "/**".data (jsTrim l) = false) →
      (∀ l ∈ ls, ∀ c ∈ l, c ≠ '\n' ∧ c ≠ '\r') →
      ∀ e ∈ goLines u b st ls,
        listStartsWith "/**".data (jsTrim e) = false ∧
        (∀ c ∈ e, c ≠ '\n' ∧ c ≠ '\r') := by
  intro ls
  induction ls with
  | nil => intro st _ _ _ e he; exact absurd he (List.not_mem_nil _)
  | cons l rest ih =>
    intro st hst hdoc hch
    have hdocl := hdoc l (List.mem_cons_self _ _)
    have hdocr : ∀ l' ∈ rest, listStartsWith "/**".data (jsTrim l') = false :=
      fun l' hl' => hdoc l' (List.mem_cons_of_mem _ hl')
    have hchr : ∀ l' ∈ rest, ∀ c ∈ l', c ≠ '\n' ∧ c ≠ '\r' :=
      fun l' hl' => hch l' (List.mem_cons_of_mem _ hl')
    have hchl := hch l (List.mem_cons_self _ _)
    simp only [goLines]
    split_ifs with h1 h2 h3 h4 h5
    · intro e he
      rcases List.mem_cons.mp he with h | h
      · subst h
        refine ⟨by decide, fun c hc => absurd hc (List.not_mem_nil _)⟩
      · exact ih { st with lastWasEmpty := true } hst hdocr hchr e h
    · exact ih _ hst hdocr hchr
    · rw [Bool.and_eq_true] at h3
      rw [hdocl] at h3
      exact absurd h3.1 (by simp)
    · rw [hst] at h4
      exact absurd h4 (by simp)
    · rw [hst] at h4
      exact absurd h4 (by simp)
    · intro e he
      rcases List.mem_cons.mp he with h | h
      · subst h
        constructor
        · rw [jsTrim_reindentStep u b st l hu]
          exact hdocl
        · intro c hc
          obtain ⟨k, hk⟩ := reindentStep_line u b st (jsTrim l)
          rw [hk] at hc
          rcases List.mem_append.mp hc with h | h
          · rcases hu c (mem_repeatStr h) with h' | h' <;> subst h' <;>
              exact ⟨by decide, by decide⟩
          · exact hchl c (mem_jsTrim h)
      · exact ih _ (reindentStep_inDoc u b st (jsTrim l)) hdocr hchr e h

theorem goLines_append (u : Str) (b : Nat) :
    ∀ (xs ys : List Str) (st : RSt),
      goLines u b st (xs ++ ys) =
        goLines u b st xs ++ goLines u b (goLinesSt u b st xs) ys := by
  intro xs
  induction xs with
  | nil => intro ys st; rfl
  | cons l rest ih =>
    intro ys st
    rw [List.cons_append]
    simp only [goLines, goLinesSt]
    split_ifs <;> simp [ih]

theorem goLines_length_le (u : Str) (b : Nat) :
    ∀ (ls : List Str) (st : RSt),
      (goLines u b st ls).length ≤ ls.length := by
  intro ls
  induction ls with
  | nil => intro st; simp [goLines]
  | cons l rest ih =>
    intro st
    simp only [goLines]
    split_ifs <;> simp [List.length_cons] <;>
      first
        | exact Nat.le_succ_of_le (ih _)
        | exact ih _

theorem goLines_single_blank (u : Str) (b : Nat) (st : RSt) :
    ∀ l ∈ goLines u b st [[]], (jsTrim l).isEmpty = true := by
  intro l hl
  simp only [goLines] at hl
  rw [if_pos (show (jsTrim ([] : Str)).isEmpty = true from rfl)] at hl
  split_ifs at hl
  · rcases List.mem_cons.mp hl with h | h
    · subst h; rfl
    · exact absurd h (List.not_mem_nil _)
  · exact absurd hl (List.not_mem_nil _)



theorem goLines_idem (u : Str) (b : Nat)
    (hu : ∀ c ∈ u, c = ' ' ∨ c = '\t') :
    ∀ (ls : List Str) (st : RSt), st.inDocComment = false →
      (∀ l ∈ ls, listStartsWith "/**".data (jsTrim l) = false) →
      goLines u b st (goLines u b st ls) = goLines u b st ls := by
  intro ls
  induction ls with
  | nil => intro st _ _; rfl
  | cons l rest ih =>
    intro st hst hdoc
    have hdocl := hdoc l (List.mem_cons_self _ _)
    have hdocr : ∀ l' ∈ rest, listStartsWith "/**".data (jsTrim l') = false :=
      fun l' hl' => hdoc l' (List.mem_cons_of_mem _ hl')
    by_cases h1 : (jsTrim l).isEmpty
    · by_cases h2 : (!st.lastWasEmpty && st.started) = true
      · have hrhs : goLines u b st (l :: rest) =
            [] :: goLines u b { st with lastWasEmpty := true } rest := by
          simp only [goLines]
          rw [if_pos h1, if_pos h2]
        rw [hrhs]
        have hstep : goLines u b st
            ([] :: goLines u b { st with lastWasEmpty := true } rest) =
            [] :: goLines u b { st with lastWasEmpty := true }
              (goLines u b { st with lastWasEmpty := true } rest) := by
          simp only [goLines]
          rw [if_pos (show (jsTrim ([] : Str)).isEmpty = true from rfl),
            if_pos h2]
        rw [hstep, ih { st with lastWasEmpty := true } hst hdocr]
      · have hrhs : goLines u b st (l :: rest) = goLines u b st rest := by
          simp only [goLines]
          rw [if_pos h1, if_neg h2]
        rw [hrhs]
        exact ih st hst hdocr
    · have h3 : (listStartsWith "/**".data (jsTrim l) &&
          !listEndsWith "*/".data (jsTrim l)) = false := by
        rw [hdocl]; rfl
      have hrhs : goLines u b st (l :: rest) =
          (reindentStep u b st (jsTrim l)).1 ::
            goLines u b (reindentStep u b st (jsTrim l)).2 rest := by
        simp only [goLines]
        rw [if_neg h1, if_neg (by rw [h3]; simp), if_neg (by rw [hst]; simp)]
      rw [hrhs]
      have htr : jsTrim ((reindentStep u b st (jsTrim l)).1) = jsTrim l :=
        jsTrim_reindentStep u b st l hu
      have hstep : goLines u b st
          ((reindentStep u b st (jsTrim l)).1 ::
            goLines u b (reindentStep u b st (jsTrim l)).2 rest) =
          (reindentStep u b st (jsTrim l)).1 ::
            goLines u b (reindentStep u b st (jsTrim l)).2
              (goLines u b (reindentStep u b st (jsTrim l)).2 rest) := by
        simp only [goLines]
        rw [if_neg (by rw [htr]; exact h1),
          if_neg (by rw [htr, h3]; simp), if_neg (by rw [hst]; simp), htr]
      rw [hstep,
        ih (reindentStep u b st (jsTrim l)).2
          (reindentStep_inDoc u b st (jsTrim l)) hdocr]



theorem joinSep_append_single (sep : Str) :
    ∀ (xs : List Str) (y : Str), xs ≠ [] →
      joinSep sep (xs ++ [y]) = joinSep sep xs ++ sep ++ y := by
  intro xs
  induction xs with
  | nil => intro y h; exact absurd rfl h
  | cons x xs' ih =>
    intro y _
    cases xs' with
    | nil => simp [joinSep]
    | cons x2 xs'' =>
      have h1 : joinSep sep ((x :: x2 :: xs'') ++ [y]) =
          x ++ sep ++ joinSep sep ((x2 :: xs'') ++ [y]) := by
        rw [List.cons_append, joinSep]
        simp
      have h2 : joinSep sep (x :: x2 :: xs'') =
          x ++ sep ++ joinSep sep (x2 :: xs'') := by
        rw [joinSep]
        simp
      rw [h1, h2, ih y (by simp)]
      simp [List.append_assoc]

theorem joinSep_getLast (sep : Str) :
    ∀ (E : List Str) (z : Str), E.getLast? = some z →
      ∃ pre, joinSep sep E = pre ++ z := by
  intro E
  induction E with
  | nil => intro z hz; simp at hz
  | cons x xs ih =>
    intro z hz
    cases xs with
    | nil =>
      simp at hz
      subst hz
      exact ⟨[], by simp [joinSep]⟩
    | cons x2 xs' =>
      rw [List.getLast?_cons_cons] at hz
      obtain ⟨pre, hp⟩ := ih z hz
      refine ⟨x ++ sep ++ pre, ?_⟩
      rw [joinSep]
      · rw [hp]
        simp [List.append_assoc]
      · simp

theorem eol_not_suffix_join (eol : Str)
    (heol : eol = "\n".data ∨ eol = "\r\n".data)
    (E : List Str) (z : Str) (hz : E.getLast? = some z)
    (hzchars : ∀ c ∈ z, c ≠ '\n' ∧ c ≠ '\r') (hzne : z ≠ []) :
    List.isSuffixOf eol (joinSep eol E) = false := by
  rw [← Bool.not_eq_true, List.isSuffixOf_iff_suffix]
  rintro ⟨t, ht⟩
  obtain ⟨pre, hp⟩ := joinSep_getLast eol E z hz
  have hlast1 : (joinSep eol E).getLast? = z.getLast? := by
    rw [hp, List.getLast?_append]
    cases hzl : z.getLast? with
    | none => exact absurd (List.getLast?_eq_none_iff.mp hzl) hzne
    | some w => rfl
  have hlast2 : (joinSep eol E).getLast? = some '\n' := by
    rw [← ht, List.getLast?_append]
    rcases heol with h | h <;> subst h <;> rfl
  rw [hlast1] at hlast2
  have hw : '\n' ∈ z := List.mem_of_mem_getLast? (Option.mem_def.mpr hlast2)
  exact (hzchars '\n' hw).1 rfl



theorem reindentBlock_joinSep (opts : BasicFormatOptions)
    (heol : opts.eol = "\n".data ∨ opts.eol = "\r\n".data) (E : List Str)
    (hEch : ∀ e ∈ E, ∀ c ∈ e, c ≠ '\n' ∧ c ≠ '\r')
    (hEid : goLines opts.indent 0 initRSt E = E)
    (hEdtb : dropTrailingBlankLines E = E)
    (hEne : E ≠ []) :
    reindentBlock (joinSep opts.eol E) 0 opts = joinSep opts.eol E := by
  unfold reindentBlock
  rw [joinSep_split opts.eol heol E hEne hEch, hEid, hEdtb]

theorem reindentBlock_joinSep_eol (opts : BasicFormatOptions)
    (heol : opts.eol = "\n".data ∨ opts.eol = "\r\n".data) (E : List Str)
    (hEch : ∀ e ∈ E, ∀ c ∈ e, c ≠ '\n' ∧ c ≠ '\r')
    (hEid : goLines opts.indent 0 initRSt E = E)
    (hEdtb : dropTrailingBlankLines E = E)
    (hEne : E ≠ []) :
    reindentBlock (joinSep opts.eol E ++ opts.eol) 0 opts =
      joinSep opts.eol E := by
  unfold reindentBlock
  have hjoin : joinSep opts.eol E ++ opts.eol =
      joinSep opts.eol (E ++ [[]]) := by
    rw [joinSep_append_single opts.eol E [] hEne, List.append_nil]
  rw [hjoin, joinSep_split opts.eol heol (E ++ [[]]) (by simp)
    (by
      intro l hl c hc
      rcases List.mem_append.mp hl with h | h
      · exact hEch l h c hc
      · simp at h
        subst h
        exact absurd hc (List.not_mem_nil _))]
  rw [goLines_append, hEid,
    dtb_append_blank E _ (goLines_single_blank opts.indent 0 _), hEdtb]

end BetterArkts

namespace BetterArkts

/-!
## Claim theorems
-/

/-- C1: the spec claims `parseDocument()` of both parsers terminates on
every input.  The HML parser and the UI sub-parser do, but
`ArkTSParser.parseDocument` does not: on `function f(5)` the
`parseParameters` loop repeats its state forever (`parseParameter` returns
`null` without consuming a token when the parameter position holds a
non-identifier), so the fuel-indexed run returns `none` at every fuel —
i.e. the source loops forever on this input. -/
theorem C1_arkts_parseDocument_diverges (fuel : Nat) :
    arkParseRun fuel "function f(5)".data = none := by
  have htok : arkTokenize "function f(5)".data = some funF5Toks := by rfl
  show (arkTokenize "function f(5)".data).bind
    (fun ts => arkParseDocumentE fuel ⟨ts, []⟩) = none
  rw [htok]
  show arkParseDocumentE fuel ⟨funF5Toks, []⟩ = none
  have hgo : arkParseDocumentGo fuel [] funF5Toks = none := by
    match fuel with
    | 0 => rfl
    | 1 => rfl
    | g + 2 =>
      have htl := arkTopLevel_funF5_none g
      show arkParseDocumentGo (g + 1 + 1) [] funF5Toks = none
      rw [arkParseDocumentGo]
      simp +decide [isEofT, curTok, eofATok, arkSkipWsC, funF5Toks, htl]
      intro a b hab
      have hab' : arkParseTopLevel (g + 1) funF5Toks = some (a, b) := hab
      rw [htl] at hab'
      exact Option.noConfusion hab'
  unfold arkParseDocumentE
  rw [hgo]
  rfl

/-- C2 counterexample: the claim says every non-blank output line of the
fallback formatter has the trimmed text of some input line.  On the doc
comment `/**`, `hi`, `*/` the interior line is normalized to `* hi`, whose
trimmed text equals no input line's trim. -/
theorem C2_counterexample :
    formatWithBasicRulesText "/**\nhi\n*/".data ⟨"\n".data, "  ".data⟩ =
      "/**\n * hi\n */".data ∧
    "* hi".data ∈ nonBlankTrims "/**\n * hi\n */".data ∧
    "* hi".data ∉ (splitLinesJs "/**\nhi\n*/".data).map jsTrim := by
  refine ⟨by rfl, by decide, by decide⟩

/-- C2 (amended): when no input line opens a doc comment (so the
doc-comment normalization never runs), the indent string is blanks or tabs,
the end-of-line string is LF or CRLF and no line contains a stray carriage
return, the fallback preserves exactly the ordered sequence of non-blank
trimmed lines; in particular the output's non-blank trims are an ordered
subsequence of the input lines' trims, as the claim states. -/
theorem C2_amended (s : Str) (opts : BasicFormatOptions)
    (hu : ∀ c ∈ opts.indent, c = ' ' ∨ c = '\t')
    (heol : opts.eol = "\n".data ∨ opts.eol = "\r\n".data)
    (hdoc : ∀ l ∈ splitLinesJs s,
      listStartsWith "/**".data (jsTrim l) = false)
    (hcr : ∀ l ∈ splitLinesJs s, '\r' ∉ l) :
    nonBlankTrims (formatWithBasicRulesText s opts) = nonBlankTrims s ∧
    List.Sublist (nonBlankTrims (formatWithBasicRulesText s opts))
      ((splitLinesJs s).map jsTrim) := by
  have hch : ∀ l ∈ splitLinesJs s, ∀ c ∈ l, c ≠ '\n' ∧ c ≠ '\r' := by
    intro l hl c hc
    exact ⟨fun h => splitLinesJs_mem_no_nl s l hl (h ▸ hc),
           fun h => hcr l hl (h ▸ hc)⟩
  have htrims0 : nonBlankTrimsL
      (dropTrailingBlankLines
        (goLines opts.indent 0 initRSt (splitLinesJs s))) =
      nonBlankTrimsL (splitLinesJs s) := by
    rw [nonBlankTrimsL_dtb]
    exact goLines_trims opts.indent 0 hu (splitLinesJs s) initRSt rfl hdoc
  have hEch0 : ∀ e ∈ dropTrailingBlankLines
      (goLines opts.indent 0 initRSt (splitLinesJs s)),
      ∀ c ∈ e, c ≠ '\n' ∧ c ≠ '\r' := by
    intro e he
    exact (goLines_emitted opts.indent 0 hu (splitLinesJs s) initRSt rfl
      hdoc hch e (mem_dtb he)).2
  have hfs : formatWithBasicRulesText s opts =
      if List.isSuffixOf opts.eol s then
        joinSep opts.eol (dropTrailingBlankLines
          (goLines opts.indent 0 initRSt (splitLinesJs s))) ++ opts.eol
      else joinSep opts.eol (dropTrailingBlankLines
        (goLines opts.indent 0 initRSt (splitLinesJs s))) := rfl
  generalize hE : dropTrailingBlankLines
      (goLines opts.indent 0 initRSt (splitLinesJs s)) = E
    at htrims0 hEch0 hfs
  have main : nonBlankTrims (formatWithBasicRulesText s opts) =
      nonBlankTrims s := by
    rw [hfs]
    unfold nonBlankTrims
    cases E with
    | nil =>
      have hLb : nonBlankTrimsL (splitLinesJs s) = [] := by
        rw [← htrims0]; rfl
      rw [hLb]
      split_ifs with hsuf
      · rcases heol with h | h <;> rw [h] <;> rfl
      · rfl
    | cons e0 E' =>
      have hsplit : splitLinesJs (joinSep opts.eol (e0 :: E')) = e0 :: E' :=
        joinSep_split opts.eol heol (e0 :: E') (by simp) hEch0
      split_ifs with hsuf
      · have hjoin : joinSep opts.eol (e0 :: E') ++ opts.eol =
            joinSep opts.eol ((e0 :: E') ++ [[]]) := by
          rw [joinSep_append_single opts.eol (e0 :: E') [] (by simp),
            List.append_nil]
        rw [hjoin, joinSep_split opts.eol heol ((e0 :: E') ++ [[]]) (by simp)
          (by
            intro l hl c hc
            rcases List.mem_append.mp hl with h | h
            · exact hEch0 l h c hc
            · simp at h
              subst h
              exact absurd hc (List.not_mem_nil _))]
        rw [nonBlankTrimsL_append, htrims0]
        simp [nonBlankTrimsL, jsTrim]
      · rw [hsplit, htrims0]
  refine ⟨main, ?_⟩
  rw [main]
  exact List.filter_sublist _
/-- C2 amended witness: the amended theorem applied to a two-line input
ending in a newline. -/
theorem C2_amended_witness :
    nonBlankTrims (formatWithBasicRulesText "const x = 1\nlet y = 2\n".data
        ⟨"\n".data, "  ".data⟩) =
      nonBlankTrims "const x = 1\nlet y = 2\n".data ∧
    List.Sublist
      (nonBlankTrims (formatWithBasicRulesText "const x = 1\nlet y = 2\n".data
        ⟨"\n".data, "  ".data⟩))
      ((splitLinesJs "const x = 1\nlet y = 2\n".data).map jsTrim) :=
  C2_amended "const x = 1\nlet y = 2\n".data ⟨"\n".data, "  ".data⟩
    (by decide) (Or.inl rfl) (by decide) (by decide)

/-- C3 counterexample: the claim says the fallback reindenter is idempotent
on every input.  On a method chain interrupted by a doc comment whose
closing line starts with a dot, the first pass rewrites that closing line
to `* .end */`; in the second pass the following chain line no longer sees
a dot-initial previous line and loses its extra indent, so applying the
formatter twice differs from applying it once. -/
theorem C3_counterexample :
    formatWithBasicRulesText "Text()\n.a()\n/** x\n.end */\n.chain()".data
        ⟨"\n".data, "  ".data⟩ =
      "Text()\n  .a()\n/** x\n * .end */\n  .chain()".data ∧
    formatWithBasicRulesText
        (formatWithBasicRulesText
          "Text()\n.a()\n/** x\n.end */\n.chain()".data
          ⟨"\n".data, "  ".data⟩) ⟨"\n".data, "  ".data⟩ =
      "Text()\n  .a()\n/** x\n * .end */\n.chain()".data ∧
    formatWithBasicRulesText
        (formatWithBasicRulesText
          "Text()\n.a()\n/** x\n.end */\n.chain()".data
          ⟨"\n".data, "  ".data⟩) ⟨"\n".data, "  ".data⟩ ≠
      formatWithBasicRulesText
        "Text()\n.a()\n/** x\n.end */\n.chain()".data
        ⟨"\n".data, "  ".data⟩ := by
  refine ⟨by rfl, by rfl, by decide⟩

/-- C3 (amended): the fallback reindenter is idempotent on inputs with no
doc-comment opener lines, with a blank-or-tab indent string, an LF or CRLF
end-of-line string and no stray carriage returns: the second pass sees
exactly the first pass's emitted lines, whose trims it re-derives, and
re-emits them unchanged. -/
theorem C3_amended (s : Str) (opts : BasicFormatOptions)
    (hu : ∀ c ∈ opts.indent, c = ' ' ∨ c = '\t')
    (heol : opts.eol = "\n".data ∨ opts.eol = "\r\n".data)
    (hdoc : ∀ l ∈ splitLinesJs s,
      listStartsWith "/**".data (jsTrim l) = false)
    (hcr : ∀ l ∈ splitLinesJs s, '\r' ∉ l) :
    formatWithBasicRulesText (formatWithBasicRulesText s opts) opts =
      formatWithBasicRulesText s opts := by
  have hch : ∀ l ∈ splitLinesJs s, ∀ c ∈ l, c ≠ '\n' ∧ c ≠ '\r' := by
    intro l hl c hc
    exact ⟨fun h => splitLinesJs_mem_no_nl s l hl (h ▸ hc),
           fun h => hcr l hl (h ▸ hc)⟩
  have hidem := goLines_idem opts.indent 0 hu (splitLinesJs s) initRSt rfl hdoc
  have hPem := goLines_emitted opts.indent 0 hu (splitLinesJs s) initRSt rfl
    hdoc hch
  have hfs : formatWithBasicRulesText s opts =
      if List.isSuffixOf opts.eol s then
        joinSep opts.eol (dropTrailingBlankLines
          (goLines opts.indent 0 initRSt (splitLinesJs s))) ++ opts.eol
      else joinSep opts.eol (dropTrailingBlankLines
        (goLines opts.indent 0 initRSt (splitLinesJs s))) := rfl
  have hdec := dtb_decomp (goLines opts.indent 0 initRSt (splitLinesJs s))
  have hBblank := dtb_blank_suffix
    (goLines opts.indent 0 initRSt (splitLinesJs s))
  have hlast := dtb_getLast_nonblank
    (goLines opts.indent 0 initRSt (splitLinesJs s))
  have hdtb2 := dtb_idem (goLines opts.indent 0 initRSt (splitLinesJs s))
  generalize hP : goLines opts.indent 0 initRSt (splitLinesJs s) = P
    at hidem hPem hfs hdec hBblank hlast hdtb2
  generalize hB : (P.reverse.takeWhile (fun l => (jsTrim l).isEmpty)).reverse
      = B at hdec hBblank
  generalize hE : dropTrailingBlankLines P = E at hfs hdec hlast hdtb2
  -- facts about E
  have hEch : ∀ e ∈ E, ∀ c ∈ e, c ≠ '\n' ∧ c ≠ '\r' := by
    intro e he
    exact (hPem e (by rw [hdec]; exact List.mem_append_left B he)).2
  have hEid : goLines opts.indent 0 initRSt E = E := by
    rw [hdec] at hidem
    rw [goLines_append] at hidem
    have h1 := goLines_length_le opts.indent 0 E initRSt
    have h2 := goLines_length_le opts.indent 0 B
      (goLinesSt opts.indent 0 initRSt E)
    have hlen : (goLines opts.indent 0 initRSt E).length = E.length := by
      have h3 := congrArg List.length hidem
      simp only [List.length_append] at h3
      omega
    exact (List.append_inj hidem hlen).1
  -- the two-pass goal
  rw [hfs]
  cases E with
  | nil =>
    rw [show joinSep opts.eol [] = [] from rfl]
    split_ifs with hsuf
    · rcases heol with h | h <;>
        simp +decide [h, formatWithBasicRulesText, reindentBlock,
          splitLinesJs, goLines, dropTrailingBlankLines, joinSep, jsTrim,
          initRSt]
    · rcases heol with h | h <;>
        simp +decide [h, formatWithBasicRulesText, reindentBlock,
          splitLinesJs, goLines, dropTrailingBlankLines, joinSep, jsTrim,
          initRSt]
  | cons e0 E' =>
    have hEne : (e0 :: E') ≠ [] := by simp
    have hz : (e0 :: E').getLast? = some ((e0 :: E').getLast hEne) :=
      List.getLast?_eq_getLast _ hEne
    have hznb : (jsTrim ((e0 :: E').getLast hEne)).isEmpty = false :=
      hlast _ hz
    have hzne : (e0 :: E').getLast hEne ≠ [] := by
      intro h
      rw [h] at hznb
      simp [jsTrim] at hznb
    have hzch : ∀ c ∈ (e0 :: E').getLast hEne, c ≠ '\n' ∧ c ≠ '\r' :=
      hEch _ (List.getLast_mem hEne)
    split_ifs with hsuf
    · -- f s = join ++ eol; it ends with eol
      have hsuf2 : List.isSuffixOf opts.eol
          (joinSep opts.eol (e0 :: E') ++ opts.eol) = true :=
        List.isSuffixOf_iff_suffix.mpr ⟨_, rfl⟩
      rw [show formatWithBasicRulesText
          (joinSep opts.eol (e0 :: E') ++ opts.eol) opts =
          if List.isSuffixOf opts.eol
              (joinSep opts.eol (e0 :: E') ++ opts.eol) then
            reindentBlock (joinSep opts.eol (e0 :: E') ++ opts.eol) 0 opts ++
              opts.eol
          else reindentBlock (joinSep opts.eol (e0 :: E') ++ opts.eol) 0 opts
        from rfl]
      rw [if_pos hsuf2,
        reindentBlock_joinSep_eol opts heol (e0 :: E') hEch hEid hdtb2 hEne]
    · -- f s = join; it does not end with eol
      have hsuf2 : List.isSuffixOf opts.eol (joinSep opts.eol (e0 :: E')) =
          false :=
        eol_not_suffix_join opts.eol heol (e0 :: E') _ hz hzch hzne
      rw [show formatWithBasicRulesText (joinSep opts.eol (e0 :: E')) opts =
          if List.isSuffixOf opts.eol (joinSep opts.eol (e0 :: E')) then
            reindentBlock (joinSep opts.eol (e0 :: E')) 0 opts ++ opts.eol
          else reindentBlock (joinSep opts.eol (e0 :: E')) 0 opts
        from rfl]
      rw [hsuf2]
      rw [if_neg (by simp)]
      exact reindentBlock_joinSep opts heol (e0 :: E') hEch hEid hdtb2 hEne
/-- C3 amended witness: the amended theorem applied to a two-line input
ending in a newline. -/
theorem C3_amended_witness :
    formatWithBasicRulesText
        (formatWithBasicRulesText "const x = 1\nlet y = 2\n".data
          ⟨"\n".data, "  ".data⟩) ⟨"\n".data, "  ".data⟩ =
      formatWithBasicRulesText "const x = 1\nlet y = 2\n".data
        ⟨"\n".data, "  ".data⟩ :=
  C3_amended "const x = 1\nlet y = 2\n".data ⟨"\n".data, "  ".data⟩
    (by decide) (Or.inl rfl) (by decide) (by decide)

/-- C4: the decorator `@Preview({ title: 'Test' })` on a struct appears
byte-identical, argument text included, in the structural formatter's
output; the parser's balanced capture stores exactly the source argument
text `({ title: 'Test' })` on the decorator node. -/
theorem C4_decorator_roundtrip :
    (arkParseRun 99 c4Input).map
        (fun p => formatDocument p.1 DEFAULT_FORMAT_OPTIONS) =
      some ("@Preview(\x7b title: 'Test' \x7d)".data ++
        "\nstruct A \x7b\n  build() \x7b\n    Text('x')\n  \x7d\n\x7d\n".data) ∧
    (arkParseRun 99 c4Input).map (fun p => p.1.children.map (fun n =>
        match n with
        | .structN _ decs _ _ _ => decs.map (fun d => (d.name, d.args))
        | _ => [])) =
      some [[("Preview".data, some "(\x7b title: 'Test' \x7d)".data)]] := by
  constructor <;> rfl

/-- C5: the spec claims both the lexer's and the UI sub-parser's
template-string scans terminate the template `` `a${ {x:1} }b` `` exactly
at the final backtick.  The lexer's does; the UI sub-parser's counts the
`{` of `${` a second time (it increments the depth at `$` without consuming
the `{`), so its depth never returns to 0 and the scan swallows everything
after the closing backtick (here, the `)` that should close the enclosing
balanced capture). -/
theorem C5_template_brace_scanning :
    uiConsumeString '`' "`a$\x7b \x7bx:1\x7d \x7db`)".data =
      ("`a$\x7b \x7bx:1\x7d \x7db`)".data, []) ∧
    lx2ConsumeString '`' "`a$\x7b \x7bx:1\x7d \x7db`)".data =
      ("`a$\x7b \x7bx:1\x7d \x7db`".data, ")".data) := by
  constructor <;> rfl

/-- C6 counterexample: at cursor text `ForEach(x)`, the UI sub-parser
produces a plain component node — `isLoop = false` — not the loop
pseudo-node the claim describes. -/
theorem C6_counterexample :
    (uiParseComponent 99 "ForEach(x)".data).map (fun p => p.1.map (fun c =>
        (c.name, c.isLoop, c.args, c.attributes.length,
         c.children.length))) =
      some (some ("ForEach".data, false, "(x)".data, 0, 0)) := by rfl

/-- C6 (amended): text beginning `ForEach(` is matched by the
uppercase-component rule first, so `parseComponent` yields a plain
component node named `ForEach` with `isLoop = false` (the dedicated
`parseForEachComponent` branch is unreachable for such input). -/
theorem C6_amended (rest : Str) (fuel : Nat) (c : UIComp) (s' : Str)
    (h : uiParseComponent fuel ("ForEach(".data ++ rest) =
      some (some c, s')) :
    c.isLoop = false ∧ c.isConditional = false ∧ c.name = "ForEach".data := by
  match fuel with
  | 0 => simp [uiParseComponent] at h
  | f + 1 =>
    have hred : uiParseComponent (f + 1) ("ForEach(".data ++ rest) =
        (uiConsumeBalanced '(' ')' f ('(' :: rest)).bind (fun pa =>
          (uiParseAttributes f [] pa.2).bind (fun pb =>
            (uiParseChildren f pb.2).map (fun pc =>
              (some (UIComp.mk "ForEach".data pa.1 pb.1 pc.1 false [] false
                []), pc.2)))) := rfl
    rw [hred] at h
    cases hpa : uiConsumeBalanced '(' ')' f ('(' :: rest) with
    | none => rw [hpa] at h; simp at h
    | some pa =>
      rw [hpa] at h
      simp only [Option.some_bind] at h
      cases hpb : uiParseAttributes f [] pa.2 with
      | none => rw [hpb] at h; simp at h
      | some pb =>
        rw [hpb] at h
        simp only [Option.some_bind] at h
        cases hpc : uiParseChildren f pb.2 with
        | none => rw [hpc] at h; simp at h
        | some pc =>
          rw [hpc] at h
          simp only [Option.map_some'] at h
          injection h with h1
          injection h1 with h2 h3
          injection h2 with h4
          subst h4
          exact ⟨rfl, rfl, rfl⟩

/-- C6 amended witness: the amended theorem applied to the concrete input
`ForEach(x)` with fuel 99. -/
theorem C6_amended_witness :
    (UIComp.mk "ForEach".data "(x)".data [] [] false [] false []).isLoop =
        false ∧
      (UIComp.mk "ForEach".data "(x)".data [] [] false [] false
        []).isConditional = false ∧
      (UIComp.mk "ForEach".data "(x)".data [] [] false [] false []).name =
        "ForEach".data :=
  C6_amended "x)".data 99
    (UIComp.mk "ForEach".data "(x)".data [] [] false [] false []) []
    (by rfl)

/-- C7 counterexample: on input `'{'` the structural pipeline parses an
empty document and formats it as a bare newline.  The count of braces
outside strings is 0 in both input and output (unchanged), comment counts
are equal, yet `hasFormattingIssues` reports an issue — its brace check
counts characters inside strings too — and the provider discards the
structural result for the fallback.  This refutes the claim's "if that
count outside strings is unchanged, the brace part does not by itself
trigger fallback". -/
theorem C7_counterexample :
    (arkParseRun 99 c7Orig).map (fun p => formatDocument p.1 c7Fo) =
      some "\n".data ∧
    bracesOutsideStrings c7Orig = 0 ∧
    bracesOutsideStrings "\n".data = 0 ∧
    countCommentMatches c7Orig = countCommentMatches "\n".data ∧
    hasFormattingIssues c7Orig "\n".data = true ∧
    provideDocumentFormattingEdits 99 c7Orig 2 true true =
      some .fallbackNoEdit := by
  refine ⟨by rfl, by rfl, by rfl, by rfl, by rfl, by rfl⟩

/-- C7 (amended): `hasFormattingIssues` compares the total count of brace
characters anywhere in the text — inside strings as much as outside — and
the dropped-comment count; it reports no issue exactly when the comment
count has not decreased and the total brace count is unchanged. -/
theorem C7_amended (original formatted : Str) :
    hasFormattingIssues original formatted = false ↔
      (countCommentMatches original ≤ countCommentMatches formatted ∧
       braceCharCount original = braceCharCount formatted) := by
  unfold hasFormattingIssues
  split_ifs with h1 h2
  · simp
    omega
  · simp
    intro
    omega
  · simp
    omega

/-- C8 counterexample: `parseClosingTag("b")` on the token stream of
`</a>` returns `false` and records the mismatch error, but the final token
list is empty — the `</`, `a` and `>` tokens were all consumed before the
name comparison, contradicting the claim that the mismatched closing tag's
tokens are left for an outer caller. -/
theorem C8_counterexample :
    hmlTokenize "</a>".data = some c8Toks ∧
    hmlParseClosingTag "b".data ⟨c8Toks, []⟩ =
      (false, ⟨[], [⟨"Expected closing tag".data, eofHTok⟩]⟩) := by
  constructor <;> rfl

/-- C8 (amended): on a mismatched closing tag `</name>` the parser records
a `ParseError` and returns `false`, but only after consuming the `</`, the
name and the `>`; the caller's children loop resumes after the closing
tag. -/
theorem C8_amended (expected name : Str) (rest : List HTok)
    (errs : List HErr) (hne : name ≠ expected) :
    hmlParseClosingTag expected
        ⟨⟨.tagClose, "</".data⟩ :: ⟨.name, name⟩ :: ⟨.tagEnd, ">".data⟩ ::
          rest, errs⟩ =
      (false, ⟨rest,
        errs ++ [⟨"Expected closing tag".data, rest.head?.getD eofHTok⟩]⟩) := by
  simp +decide [hmlParseClosingTag, hCur, hAdvance, hReport, eofHTok, hne]

/-- C8 amended witness: the amended theorem at `</a>` against expected tag
`b`, with one trailing text token that becomes the new current token. -/
theorem C8_amended_witness :
    hmlParseClosingTag "b".data
        ⟨⟨.tagClose, "</".data⟩ :: ⟨.name, "a".data⟩ ::
          ⟨.tagEnd, ">".data⟩ :: [⟨.text, "z".data⟩], []⟩ =
      (false, ⟨[⟨.text, "z".data⟩],
        [⟨"Expected closing tag".data, ⟨.text, "z".data⟩⟩]⟩) :=
  C8_amended "b".data "a".data [⟨.text, "z".data⟩] [] (by decide)

/-- C9: every element whose parsed tag name is in the fixed void-tag set is
returned self-closing with an empty child list, whether or not the source
wrote `/>`: the `TagSelfClose` branch and the void-tag branch both return
`selfClosing = true` with no children, and the children loop (which returns
`selfClosing = false`) is only entered for non-void tags. -/
theorem C9_void_tags (fuel : Nat) (st : HSt) (n : HmlNode) (st' : HSt)
    (h : hmlParseElement fuel st = some (n, st'))
    (hv : VOID_TAGS.contains n.tagName = true) :
    n.selfClosing = true ∧ n.children = [] := by
  match fuel with
  | 0 => simp [hmlParseElement] at h
  | f + 1 =>
    rcases hq : hmlElemName (hExpect HTokType.tagOpen st) with ⟨tag, st1⟩
    simp only [hmlParseElement, hq] at h
    cases hpa : hmlParseAttrsGo f [] st1 with
    | none => rw [hpa] at h; simp at h
    | some pa =>
      rw [hpa] at h
      simp only [Option.some_bind] at h
      split at h
      · injection h with h1
        injection h1 with h2 h3
        subst h2
        exact ⟨rfl, rfl⟩
      · split at h
        · injection h with h1
          injection h1 with h2 h3
          subst h2
          exact ⟨rfl, rfl⟩
        · obtain ⟨cs, hcs⟩ := hmlParseChildrenGo_shape _ _ _ _ _ _ _ h
          subst hcs
          simp [HmlNode.tagName] at hv
          simp_all

/-- C9 witness: parsing `<br>` and `<br/>` both produce
`elementN "br" [] [] true`, and the theorem applies to both runs. -/
theorem C9_void_tags_witness :
    ((HmlNode.elementN "br".data [] [] true).selfClosing = true ∧
      (HmlNode.elementN "br".data [] [] true).children = []) ∧
    ((HmlNode.elementN "br".data [] [] true).selfClosing = true ∧
      (HmlNode.elementN "br".data [] [] true).children = []) :=
  ⟨C9_void_tags 50 ⟨[⟨.tagOpen, "<".data⟩, ⟨.name, "br".data⟩,
      ⟨.tagEnd, ">".data⟩], []⟩
      (.elementN "br".data [] [] true) ⟨[], []⟩ (by rfl) (by rfl),
   C9_void_tags 50 ⟨[⟨.tagOpen, "<".data⟩, ⟨.name, "br".data⟩,
      ⟨.tagSelfClose, "/>".data⟩], []⟩
      (.elementN "br".data [] [] true) ⟨[], []⟩ (by rfl) (by rfl)⟩

/-- C10: whenever `ArkTSParser.parseDocument()` completes, the parser's
error list is empty: `reportError` has no call site, so no parsing path
ever appends a diagnostic, and the "parser reports errors" trigger of the
provider's fallback routing can never fire. -/
theorem C10_no_parse_errors (fuel : Nat) (s : Str) (d : ADoc)
    (st' : AParserState) (h : arkParseRun fuel s = some (d, st')) :
    st'.errors = [] := by
  unfold arkParseRun arkParseDocumentE at h
  cases htok : arkTokenize s with
  | none => rw [htok] at h; simp at h
  | some ts =>
    rw [htok] at h
    simp only [Option.some_bind] at h
    cases hgo : arkParseDocumentGo fuel [] ts with
    | none => rw [hgo] at h; simp at h
    | some p =>
      rw [hgo] at h
      simp only [Option.map_some'] at h
      injection h with h1
      injection h1 with h2 h3
      rw [← h3]

/-- C10 witness: the theorem applied to the empty input, which parses
completely with an empty error list. -/
theorem C10_no_parse_errors_witness :
    (AParserState.mk [] []).errors = [] :=
  C10_no_parse_errors 9 [] ⟨[]⟩ ⟨[], []⟩ (by rfl)

end BetterArkts
